import Mathlib

/-!
Verification of the Othello web match server against its specification.

The definitions below are a shallow embedding of the repository's code:
the pure rule engine (shared othello module) and the WebSocket match
server (room manager, matchmaking queue, session registry, timeout
sweeper).  JS arrays become lists, `Map`s become association lists,
`Set`s become duplicate-free lists, `Date.now()` and the random sources
(`createMatchKey`, `Math.random`) become explicit parameters, and each
message handler becomes a function from server state to server state
paired with the list of outbound messages it sends (recipient client id,
message).
-/

namespace Othello

/-- Disk = 'B' | 'W'. -/
inductive Disk where
  | B : Disk
  | W : Disk
deriving DecidableEq, Repr

/-- Cell = Disk | null.  `none` is an empty cell; a JS hole / out-of-range
read (undefined) behaves like null everywhere this code reads cells, so it
is also `none` (see `cellAt`). -/
abbrev Cell := Option Disk

/-- BOARD_SIZE = 8. -/
def BOARD_SIZE : Nat := 8

/-- The eight scan directions, in source order. -/
def DIRECTIONS : List (Int × Int) :=
  [(-1, -1), (-1, 0), (-1, 1), (0, -1), (0, 1), (1, -1), (1, 0), (1, 1)]

/-- DISK_LABEL: human-readable disk names. -/
def DISK_LABEL : Disk → String
  | .B => "Black"
  | .W => "White"

/-- toIndex(row, col) = row * BOARD_SIZE + col.  Only read under
`isInBounds`, where the product is non-negative. -/
def toIndex (row col : Int) : Nat := (row * (BOARD_SIZE : Int) + col).toNat

/-- isInBounds(row, col). -/
def isInBounds (row col : Int) : Bool :=
  decide (0 ≤ row) && decide (row < (BOARD_SIZE : Int)) &&
    decide (0 ≤ col) && decide (col < (BOARD_SIZE : Int))

/-- createInitialBoard: 64 empty cells, then the four centre cells
(indices 27, 28, 35, 36 = toIndex from center-1). -/
def createInitialBoard : List Cell :=
  ((((List.replicate (BOARD_SIZE * BOARD_SIZE) (none : Cell)).set 27
    (some .W)).set 28 (some .B)).set 35 (some .B)).set 36 (some .W)

/-- nextDisk. -/
def nextDisk : Disk → Disk
  | .B => .W
  | .W => .B

/-- board[i] as the JS code reads it: an in-range cell, and `none` for an
out-of-range index (undefined is falsy exactly like null in every read). -/
def cellAt (board : List Cell) (i : Nat) : Cell :=
  (board.get? i).join

/-- The inner `while (isInBounds(r, c))` loop of computeValidMoves for one
direction, starting at (r, c): `some captured` when the walk over a run of
cells ends on `disk`'s own colour, `none` when it hits an empty cell, the
edge, or runs out of fuel.  The fuel `BOARD_SIZE` handed out by `cellFlips`
is never exhausted strictly inside the board: a straight in-bounds run
holds at most BOARD_SIZE cells, and after BOARD_SIZE steps the walk is
necessarily past the edge, which the JS loop treats the same way. -/
def scanDir (board : List Cell) (disk : Disk) (dRow dCol : Int) :
    Nat → Int → Int → Option (List Nat)
  | 0, _, _ => none
  | fuel + 1, r, c =>
    if isInBounds r c then
      match cellAt board (toIndex r c) with
      | none => none
      | some occupant =>
        if occupant = disk then some []
        else
          (scanDir board disk dRow dCol fuel (r + dRow) (c + dCol)).map
            (fun captured => toIndex r c :: captured)
    else none

/-- The flips computed for one empty cell: each direction's captured run
(nothing when the run fails), concatenated in DIRECTIONS order. -/
def cellFlips (board : List Cell) (disk : Disk) (index : Nat) : List Nat :=
  let row : Int := (index / BOARD_SIZE : Nat)
  let col : Int := (index % BOARD_SIZE : Nat)
  (DIRECTIONS.map (fun d =>
    (scanDir board disk d.1 d.2 BOARD_SIZE (row + d.1) (col + d.2)).getD [])).flatten

/-- computeValidMoves: the MoveMap as an association list in board order.
`board.forEach` skips occupied (truthy) cells; an empty cell is kept
exactly when its flip list is non-empty. -/
def computeValidMoves (board : List Cell) (disk : Disk) : List (Nat × List Nat) :=
  board.enum.filterMap (fun p =>
    match p.2 with
    | some _ => none
    | none =>
      let flips := cellFlips board disk p.1
      if flips = [] then none else some (p.1, flips))

/-- MoveMap.get: the first entry with the given key. -/
def lookupMove (moves : List (Nat × List Nat)) (index : Nat) : Option (List Nat) :=
  match moves with
  | [] => none
  | (k, v) :: rest => if k = index then some v else lookupMove rest index

/-- JS array assignment next[i] = v: an in-range write replaces the cell,
an out-of-range write extends the array with holes (which read back as
undefined, i.e. empty) and puts v at index i. -/
def setJs (next : List Cell) (i : Nat) (v : Cell) : List Cell :=
  if i < next.length then next.set i v
  else next ++ List.replicate (i - next.length) none ++ [v]

/-- applyMove: copy the board, put `disk` at `index` and at every flip
index.  The input board is a value, never changed (the JS code copies with
slice() for the same reason). -/
def applyMove (board : List Cell) (index : Nat) (disk : Disk)
    (flips : List Nat) : List Cell :=
  flips.foldl (fun next flipIndex => setJs next flipIndex (some disk))
    (setJs board index (some disk))

/-- The per-disk totals countDisks folds up. -/
structure Scores where
  B : Nat
  W : Nat
deriving DecidableEq, Repr

/-- countDisks' reducer. -/
def countStep (acc : Scores) (cell : Cell) : Scores :=
  match cell with
  | some .B => { acc with B := acc.B + 1 }
  | some .W => { acc with W := acc.W + 1 }
  | none => acc

/-- countDisks. -/
def countDisks (board : List Cell) : Scores :=
  board.foldl countStep ⟨0, 0⟩

/-- The number of empty cells of a board (the spec's "empty count"). -/
def countEmpty (board : List Cell) : Nat :=
  (board.filter (fun cell => cell = none)).length

/-! ## The match server's state

Server configuration: the two timing knobs default to 180000 ms and
15000 ms; the port does not affect any modelled behaviour. -/

def TURN_TIMEOUT_MS : Nat := 180000

/-- ClientStatus = 'idle' | 'queue' | 'waiting' | 'playing' | 'spectating'. -/
inductive ClientStatus where
  | idle | queue | waiting | playing | spectating
deriving DecidableEq, Repr

/-- ClientRole = 'player' | 'spectator' (null is `Option.none` around it). -/
inductive ClientRole where
  | player | spectator
deriving DecidableEq, Repr

/-- RoomState.status ∈ 'waiting' | 'playing' | 'finished'. -/
inductive RoomStatus where
  | waiting | playing | finished
deriving DecidableEq, Repr

/-- WinnerFlag = Disk | 'draw' (null is `Option.none` around it). -/
inductive WinnerFlag where
  | disk (d : Disk)
  | draw
deriving DecidableEq, Repr

/-- RoomState.  `players` (a Record keyed by Disk) becomes the two fields
`playerB` and `playerW`; the spectator `Set` becomes a duplicate-free list
in insertion order. -/
structure RoomState where
  key : String
  board : List Cell
  currentDisk : Disk
  lastMove : Option Nat
  playerB : Option String
  playerW : Option String
  spectators : List String
  status : RoomStatus
  statusMessage : String
  createdAt : Nat
  winner : Option WinnerFlag
  turnDeadline : Option Nat
deriving DecidableEq, Repr

/-- room.players[disk]. -/
def RoomState.player (room : RoomState) (d : Disk) : Option String :=
  match d with
  | .B => room.playerB
  | .W => room.playerW

/-- room.players[disk] = v. -/
def RoomState.setPlayer (room : RoomState) (d : Disk) (v : Option String) :
    RoomState :=
  match d with
  | .B => { room with playerB := v }
  | .W => { room with playerW := v }

/-- ClientMeta (the session registry's record; the live socket and the
pending disconnect timer are not part of the modelled state — delivery is
modelled by the outbox and the timer by the `evict` step). -/
structure ClientMeta where
  id : String
  status : ClientStatus
  roomKey : Option String
  role : Option ClientRole
  disk : Option Disk
deriving DecidableEq, Repr

/-- The broadcast snapshot toStatePayload builds. -/
structure MatchStatePayload where
  matchKey : String
  board : List Cell
  currentDisk : Disk
  lastMove : Option Nat
  scores : Scores
  spectators : Nat
  statusMessage : String
  winner : Option WinnerFlag
  turnDeadline : Option Nat
deriving DecidableEq, Repr

/-- The outbound message kinds (4.6 of the spec; field layout follows the
send sites in the server source). -/
inductive OutMsg where
  | hello (clientId : String)
  | queueStatus (searching : Bool)
  | matchWaiting (matchKey : String) (yourDisk : Disk)
  | matchStart (youAre : String) (yourDisk : Option Disk) (matchKey : String)
      (state : MatchStatePayload)
  | matchUpdate (state : MatchStatePayload)
  | matchEnd (reason : String) (state : MatchStatePayload)
  | promptSpectate (matchKey : String)
  | error (message : String)
deriving DecidableEq, Repr

/-- What one event handler emits: (recipient client id, message) in send
order.  Delivery conditions (socket.readyState) are not modelled; every
bound transport is taken as open. -/
abbrev Outbox := List (String × OutMsg)

/-- The whole mutable server state: the room index, the session registry
(both JS Maps, modelled as association lists in insertion order) and the
random queue. -/
structure ServerState where
  rooms : List (String × RoomState)
  clients : List (String × ClientMeta)
  randomQueue : List String
deriving DecidableEq, Repr

/-- Map.get: the first entry with the given key. -/
def mapFind {α : Type} (m : List (String × α)) (k : String) : Option α :=
  match m with
  | [] => none
  | (k2, v) :: rest => if k2 = k then some v else mapFind rest k

/-- Map.set: replace the first entry with the key, else append. -/
def mapSet {α : Type} (m : List (String × α)) (k : String) (v : α) :
    List (String × α) :=
  match m with
  | [] => [(k, v)]
  | (k2, v2) :: rest =>
    if k2 = k then (k, v) :: rest else (k2, v2) :: mapSet rest k v

/-- Map.delete: drop the first entry with the key. -/
def mapDelete {α : Type} (m : List (String × α)) (k : String) :
    List (String × α) :=
  match m with
  | [] => []
  | (k2, v) :: rest => if k2 = k then rest else (k2, v) :: mapDelete rest k

/-- Set.add: append when absent. -/
def setAdd (s : List String) (x : String) : List String :=
  if x ∈ s then s else s ++ [x]

/-- JS truthiness of the numeric turnDeadline field: null and 0 are falsy.
Every deadline the server records is now + TURN_TIMEOUT_MS, hence
positive. -/
def truthyDeadline : Option Nat → Bool
  | none => false
  | some d => d != 0

/-- toStatePayload. -/
def toStatePayload (room : RoomState) : MatchStatePayload :=
  { matchKey := room.key
    board := room.board
    currentDisk := room.currentDisk
    lastMove := room.lastMove
    scores := countDisks room.board
    spectators := room.spectators.length
    statusMessage := room.statusMessage
    winner := room.winner
    turnDeadline := room.turnDeadline }

/-- sendById: deliver to a client id only when the registry still holds
it (nothing for null or an unknown id). -/
def sendById (s : ServerState) (clientId : Option String) (msg : OutMsg) :
    Outbox :=
  match clientId with
  | none => []
  | some cid =>
    match mapFind s.clients cid with
    | none => []
    | some _ => [(cid, msg)]

/-- broadcastRoom: both seats (B then W, the players record's key order)
then every spectator, all through sendById. -/
def broadcastRoom (s : ServerState) (room : RoomState) (msg : OutMsg) : Outbox :=
  sendById s room.playerB msg ++ sendById s room.playerW msg ++
    (room.spectators.map (fun sid => sendById s (some sid) msg)).flatten

/-- releaseClient: reset a registered client's session fields to idle. -/
def releaseClient (s : ServerState) (clientId : Option String) : ServerState :=
  match clientId with
  | none => s
  | some cid =>
    match mapFind s.clients cid with
    | none => s
    | some meta =>
      { s with
          clients := mapSet s.clients cid
            { meta with status := .idle, role := none, roomKey := none, disk := none } }

/-- releaseRoomOccupants: release both seats and every spectator, then
empty the room's seats and spectator set. -/
def releaseRoomOccupants (s : ServerState) (room : RoomState) :
    ServerState × RoomState :=
  let s1 := releaseClient (releaseClient s room.playerB) room.playerW
  let s2 := room.spectators.foldl (fun acc sid => releaseClient acc (some sid)) s1
  (s2, { room with playerB := none, playerW := none, spectators := [] })

/-- refreshTurnDeadline. -/
def refreshTurnDeadline (room : RoomState) (now : Nat) : RoomState :=
  if room.status = .playing then
    { room with turnDeadline := some (now + TURN_TIMEOUT_MS) }
  else { room with turnDeadline := none }

/-- deriveStatusMessage: recompute status, winner, message and (when the
room ends here) clear the deadline. -/
def deriveStatusMessage (room : RoomState) : RoomState :=
  if room.status = .finished then
    let room := { room with turnDeadline := none }
    match room.winner with
    | some .draw => { room with statusMessage := "Game over — it's a draw." }
    | some (.disk w) =>
      let scores := countDisks room.board
      { room with
          statusMessage := DISK_LABEL w ++ " wins " ++ toString scores.B ++ "-"
            ++ toString scores.W ++ "." }
    | none => room
  else
    let currentMoves := computeValidMoves room.board room.currentDisk
    if currentMoves.length > 0 then
      { room with statusMessage := DISK_LABEL room.currentDisk ++ " to move." }
    else
      let alternate := nextDisk room.currentDisk
      let alternateMoves := computeValidMoves room.board alternate
      if alternateMoves.length = 0 then
        let scores := countDisks room.board
        if scores.B = scores.W then
          { room with
              status := .finished
              winner := some .draw
              statusMessage := "Game over — it's a draw."
              turnDeadline := none }
        else
          let w : Disk := if scores.B > scores.W then .B else .W
          { room with
              status := .finished
              winner := some (.disk w)
              statusMessage := DISK_LABEL w ++ " controls the board "
                ++ toString scores.B ++ "-" ++ toString scores.W ++ "."
              turnDeadline := none }
      else
        let passingDisk := room.currentDisk
        { room with
            currentDisk := alternate
            statusMessage := DISK_LABEL passingDisk ++ " has no moves. "
              ++ DISK_LABEL alternate ++ " plays again." }

/-- ensureRoomTurn. -/
def ensureRoomTurn (room : RoomState) : RoomState :=
  if room.status = .finished then room else deriveStatusMessage room

/-- createRoom.  The random match key and Date.now() are parameters. -/
def createRoom (key : String) (now : Nat) : RoomState :=
  { key := key
    board := createInitialBoard
    currentDisk := .B
    lastMove := none
    playerB := none
    playerW := none
    spectators := []
    status := .waiting
    statusMessage := "Waiting for opponent."
    createdAt := now
    winner := none
    turnDeadline := none }

/-- startRoom: (re)initialise the board and start play. -/
def startRoom (room : RoomState) (now : Nat) : RoomState :=
  refreshTurnDeadline
    { room with
        board := createInitialBoard
        currentDisk := .B
        lastMove := none
        status := .playing
        statusMessage := "Black to move first."
        winner := none } now

/-- assignPlayer.  Every call site in the server passes an explicit disk
preference, so only that path is embedded. -/
def assignPlayer (room : RoomState) (clientId : String) (diskPreference : Disk) :
    RoomState × Disk :=
  (room.setPlayer diskPreference (some clientId), diskPreference)

/-- cleanupRoom: clear the deadline, broadcast the terminal snapshot,
release every occupant and drop the room from the index. -/
def cleanupRoom (s : ServerState) (room : RoomState) (reason : String) :
    ServerState × Outbox :=
  let room := { room with turnDeadline := none }
  let state := toStatePayload room
  let msgs := broadcastRoom s room (.matchEnd reason state)
  let r := releaseRoomOccupants s room
  ({ r.1 with rooms := mapDelete r.1.rooms room.key }, msgs)

/-- handleTimeout: forfeit the player on move of a playing room whose
deadline is set (truthy), then clean the room up with reason "timeout". -/
def handleTimeout (s : ServerState) (roomKey : String) : ServerState × Outbox :=
  match mapFind s.rooms roomKey with
  | none => (s, [])
  | some room =>
    if room.status = .playing && truthyDeadline room.turnDeadline then
      let loser := room.currentDisk
      let winner := nextDisk loser
      cleanupRoom s
        { room with
            status := .finished
            winner := some (.disk winner)
            statusMessage := DISK_LABEL winner ++ " wins by timeout." }
        "timeout"
    else (s, [])

/-- handleMove. -/
def handleMove (s : ServerState) (cid : String) (index : Nat) (now : Nat) :
    ServerState × Outbox :=
  match mapFind s.clients cid with
  | none => (s, [])
  | some meta =>
    match meta.roomKey, meta.role, meta.disk with
    | some roomKey, some .player, some d =>
      match mapFind s.rooms roomKey with
      | none => (s, [])
      | some room =>
        if room.status ≠ .playing then (s, [])
        else if room.currentDisk ≠ d then (s, [])
        else
          let validMoves := computeValidMoves room.board room.currentDisk
          match lookupMove validMoves index with
          | none => (s, [(cid, .error "Invalid move.")])
          | some flips =>
            let moved :=
              { room with
                  board := applyMove room.board index room.currentDisk flips
                  lastMove := some index
                  currentDisk := nextDisk room.currentDisk }
            let turned := ensureRoomTurn moved
            let roomStatus := turned.status
            let room2 := refreshTurnDeadline turned now
            let s1 := { s with rooms := mapSet s.rooms roomKey room2 }
            let state := toStatePayload room2
            let msgs := broadcastRoom s1 room2 (.matchUpdate state)
            if roomStatus = .finished then
              let r := cleanupRoom s1 room2 "completed"
              (r.1, msgs ++ r.2)
            else (s1, msgs)
    | _, _, _ => (s, [])

/-- handleSpectateJoin. -/
def handleSpectateJoin (s : ServerState) (cid : String) (key : String) :
    ServerState × Outbox :=
  match mapFind s.clients cid with
  | none => (s, [])
  | some meta =>
    if meta.status ≠ .idle then
      (s, [(cid, .error "Leave your current session before spectating.")])
    else
      match mapFind s.rooms key with
      | none => (s, [(cid, .error "Match not found.")])
      | some room =>
        if room.status ≠ .playing then
          (s, [(cid, .error "Match is not currently playing.")])
        else
          let meta2 :=
            { meta with
                status := .spectating
                role := some .spectator
                roomKey := some key
                disk := none }
          let room2 := { room with spectators := setAdd room.spectators meta.id }
          let s1 :=
            { s with
                clients := mapSet s.clients cid meta2
                rooms := mapSet s.rooms key room2 }
          let state := toStatePayload room2
          (s1, [(cid, .matchStart "spectator" none room2.key state)] ++
            broadcastRoom s1 room2 (.matchUpdate state))

/-- handleKeyJoin. -/
def handleKeyJoin (s : ServerState) (cid : String) (key : String) (now : Nat) :
    ServerState × Outbox :=
  match mapFind s.clients cid with
  | none => (s, [])
  | some meta =>
    if meta.status ≠ .idle then
      (s, [(cid, .error "Leave your current session before joining another match.")])
    else
      match mapFind s.rooms key with
      | none => (s, [(cid, .error "Match key not found.")])
      | some room =>
        if room.status = .playing ∧ room.playerB ≠ none ∧ room.playerW ≠ none then
          (s, [(cid, .promptSpectate key)])
        else if room.status = .finished then
          (s, [(cid, .error "Match already finished.")])
        else
          let pref : Disk := if room.playerB ≠ none then .W else .B
          let assigned := assignPlayer room meta.id pref
          let room2 := assigned.1
          let disk := assigned.2
          let meta2 :=
            { meta with
                status := .playing
                role := some .player
                roomKey := some key
                disk := some disk }
          let s1 := { s with clients := mapSet s.clients cid meta2 }
          if room2.playerB ≠ none ∧ room2.playerW ≠ none then
            let room3 := startRoom room2 now
            let s2 := { s1 with rooms := mapSet s1.rooms key room3 }
            let state := toStatePayload room3
            (s2,
              sendById s2 room3.playerB (.matchStart "player" (some .B) room3.key state) ++
                sendById s2 room3.playerW (.matchStart "player" (some .W) room3.key state))
          else
            let room3 :=
              { room2 with
                  statusMessage := "Waiting for opponent to join via key."
                  turnDeadline := none }
            let s2 := { s1 with rooms := mapSet s1.rooms key room3 }
            (s2, [(cid, .matchWaiting key disk)])

/-- createRandomRoom.  The fresh match key, Math.random's seat coin
(`coin` = the 50/50 draw came out above 0.5, which reverses the entrant
order) and Date.now() are parameters. -/
def createRandomRoom (s : ServerState) (firstId secondId : String)
    (freshKey : String) (coin : Bool) (now : Nat) : ServerState × Outbox :=
  match mapFind s.clients firstId, mapFind s.clients secondId with
  | none, none => (s, [])
  | some _, none => ({ s with randomQueue := firstId :: s.randomQueue }, [])
  | none, some _ => ({ s with randomQueue := secondId :: s.randomQueue }, [])
  | some firstMeta, some secondMeta =>
    let bId := if coin then secondId else firstId
    let wId := if coin then firstId else secondId
    let bMeta0 := if coin then secondMeta else firstMeta
    let wMeta0 := if coin then firstMeta else secondMeta
    let room0 := createRoom freshKey now
    let room1 := { room0 with playerB := some bMeta0.id, playerW := some wMeta0.id }
    let bMeta :=
      { bMeta0 with
          status := .playing
          role := some .player
          roomKey := some room0.key
          disk := some Disk.B }
    let wMeta :=
      { wMeta0 with
          status := .playing
          role := some .player
          roomKey := some room0.key
          disk := some Disk.W }
    let room2 := startRoom room1 now
    let s1 :=
      { s with
          rooms := mapSet s.rooms room0.key room2
          clients := mapSet (mapSet s.clients bId bMeta) wId wMeta }
    let state := toStatePayload room2
    (s1,
      [(bId, .queueStatus false),
       (bId, .matchStart "player" (some Disk.B) room2.key state),
       (wId, .queueStatus false),
       (wId, .matchStart "player" (some Disk.W) room2.key state)])

/-- handleRandomJoin. -/
def handleRandomJoin (s : ServerState) (cid : String) (freshKey : String)
    (coin : Bool) (now : Nat) : ServerState × Outbox :=
  match mapFind s.clients cid with
  | none => (s, [])
  | some meta =>
    if meta.status ≠ .idle then
      if meta.status = .queue then (s, [(cid, .queueStatus true)])
      else (s, [(cid, .error "Leave your current session before re-queueing.")])
    else
      let q := s.randomQueue ++ [meta.id]
      let s1 :=
        { s with
            randomQueue := q
            clients := mapSet s.clients cid { meta with status := .queue } }
      let msgs : Outbox := [(cid, .queueStatus true)]
      match q with
      | firstId :: secondId :: rest =>
        let s2 := { s1 with randomQueue := rest }
        let r := createRandomRoom s2 firstId secondId freshKey coin now
        (r.1, msgs ++ r.2)
      | _ => (s1, msgs)

/-- handleLeave. -/
def handleLeave (s : ServerState) (cid : String) : ServerState × Outbox :=
  match mapFind s.clients cid with
  | none => (s, [])
  | some meta =>
    if meta.status = .queue then
      ({ s with
          randomQueue := s.randomQueue.erase meta.id
          clients := mapSet s.clients cid { meta with status := .idle } },
        [(cid, .queueStatus false)])
    else
      match meta.roomKey with
      | none =>
        ({ s with
            clients := mapSet s.clients cid
              { meta with status := .idle, role := none, disk := none } }, [])
      | some roomKey =>
        match mapFind s.rooms roomKey with
        | none =>
          ({ s with
              clients := mapSet s.clients cid
                { meta with
                    status := .idle
                    role := none
                    disk := none
                    roomKey := none } }, [])
        | some room =>
          if meta.role = some .spectator then
            let room2 := { room with spectators := room.spectators.erase meta.id }
            let s1 := { s with rooms := mapSet s.rooms roomKey room2 }
            let state := toStatePayload room2
            let msgs := broadcastRoom s1 room2 (.matchUpdate state)
            ({ s1 with
                clients := mapSet s1.clients cid
                  { meta with
                      status := .idle
                      role := none
                      roomKey := none } },
              msgs)
          else
            let room2 :=
              match meta.disk with
              | some d => room.setPlayer d none
              | none => room
            let r :=
              if room2.status = .playing then
                cleanupRoom s
                  { room2 with
                      status := .finished
                      winner := meta.disk.map (fun d => WinnerFlag.disk (nextDisk d))
                      statusMessage := "Opponent left the match." }
                  "opponent-left"
              else
                cleanupRoom s { room2 with statusMessage := "Host left the lobby." }
                  "host-left"
            ({ r.1 with
                clients := mapSet r.1.clients cid
                  { meta with
                      status := .idle
                      role := none
                      roomKey := none
                      disk := none } }, r.2)

/-- The key:create case of the socket message handler (inline in the
source). -/
def handleKeyCreate (s : ServerState) (cid : String) (freshKey : String)
    (now : Nat) : ServerState × Outbox :=
  match mapFind s.clients cid with
  | none => (s, [])
  | some meta =>
    if meta.status ≠ .idle then (s, [(cid, .error "Already in a session.")])
    else
      let room0 := createRoom freshKey now
      let assigned := assignPlayer room0 meta.id Disk.B
      let room := assigned.1
      let disk := assigned.2
      let meta2 :=
        { meta with
            status := .waiting
            role := some .player
            roomKey := some room0.key
            disk := some disk }
      ({ s with
          rooms := mapSet s.rooms room0.key room
          clients := mapSet s.clients cid meta2 },
        [(cid, .matchWaiting room0.key disk)])

/-- One decoded inbound message as the socket.on('message') handler sees
it after JSON.parse: the known kinds with their (possibly missing)
required fields, a parsed envelope with an unknown non-empty type, a
parsed envelope whose type is missing or empty (falsy), and an
unparseable payload. -/
inductive InMsg where
  | randomJoin
  | randomCancel
  | keyCreate
  | keyJoin (matchKey : Option String)
  | spectateJoin (matchKey : Option String)
  | move (index : Option Nat)
  | leave
  | unknownType (t : String)
  | emptyType
  | unparseable
deriving DecidableEq, Repr

/-- The socket.on('message') dispatcher. -/
def handleMessage (s : ServerState) (cid : String) (msg : InMsg) (now : Nat)
    (freshKey : String) (coin : Bool) : ServerState × Outbox :=
  match msg with
  | .randomJoin => handleRandomJoin s cid freshKey coin now
  | .randomCancel => handleLeave s cid
  | .keyCreate => handleKeyCreate s cid freshKey now
  | .keyJoin none => (s, [(cid, .error "matchKey is required.")])
  | .keyJoin (some k) => handleKeyJoin s cid k now
  | .spectateJoin none => (s, [(cid, .error "matchKey is required.")])
  | .spectateJoin (some k) => handleSpectateJoin s cid k
  | .move none => (s, [(cid, .error "index is required.")])
  | .move (some i) => handleMove s cid i now
  | .leave => handleLeave s cid
  | .unknownType t => (s, [(cid, .error ("Unknown message type: " ++ t))])
  | .emptyType => (s, [])
  | .unparseable => (s, [(cid, .error "Malformed message.")])

/-- The rooms the sweeper's tick collects as expired: playing, with a
truthy deadline at or before now. -/
def expiredKeys (s : ServerState) (now : Nat) : List String :=
  (s.rooms.filter (fun kr =>
    decide (kr.2.status = .playing) && truthyDeadline kr.2.turnDeadline &&
      decide (kr.2.turnDeadline.getD 0 ≤ now))).map (fun kr => kr.1)

/-- The expiredRooms.forEach(handleTimeout) pass over the collected keys. -/
def runTimeouts (s : ServerState) (keys : List String) (acc : Outbox) :
    ServerState × Outbox :=
  match keys with
  | [] => (s, acc)
  | k :: rest =>
    let r := handleTimeout s k
    runTimeouts r.1 rest (acc ++ r.2)

/-- One tick of the timeout sweeper (the setInterval body). -/
def sweep (s : ServerState) (now : Nat) : ServerState × Outbox :=
  runTimeouts s (expiredKeys s now) []

/-- A fresh connection with no (or an unknown) prior session identifier:
mint an idle session.  A reconnection of a live session changes none of
the modelled state (it rebinds the transport and resends a snapshot). -/
def connectClient (s : ServerState) (cid : String) : ServerState :=
  { s with
      clients := mapSet s.clients cid
        { id := cid, status := .idle, roomKey := none, role := none, disk := none } }

/-- The disconnect-eviction timer firing: treat the session as leaving and
delete it (by its own id) from the registry. -/
def evictClient (s : ServerState) (cid : String) : ServerState × Outbox :=
  let r := handleLeave s cid
  match mapFind s.clients cid with
  | some meta => ({ r.1 with clients := mapDelete r.1.clients meta.id }, r.2)
  | none => r

/-- The empty server: no rooms, no sessions, an empty queue. -/
def initialState : ServerState :=
  { rooms := [], clients := [], randomQueue := [] }

/-! ## The spec's own description of the legal-move scan

The spec describes `legalMoves` as: scan all 8 directions from every
empty cell, follow the contiguous run of the opponent's disks, and accept
when that run ends on a cell of the player's own colour before an empty
cell or the edge.  The next definitions state exactly that reading, to be
compared with `computeValidMoves` above. -/

/-- The in-bounds cells along one direction from a start, in walk order
(the walk stops at the edge; fuel BOARD_SIZE covers the longest straight
in-bounds run). -/
def rayIndices (dRow dCol : Int) : Nat → Int → Int → List Nat
  | 0, _, _ => []
  | fuel + 1, r, c =>
    if isInBounds r c then
      toIndex r c :: rayIndices dRow dCol fuel (r + dRow) (c + dCol)
    else []

/-- The ray away from a cell in one direction, starting one step out. -/
def cellRay (index : Nat) (dir : Int × Int) : List Nat :=
  let row : Int := (index / BOARD_SIZE : Nat)
  let col : Int := (index % BOARD_SIZE : Nat)
  rayIndices dir.1 dir.2 BOARD_SIZE (row + dir.1) (col + dir.2)

/-- The cell holds the opponent of `disk`. -/
def isOpponent (board : List Cell) (disk : Disk) (i : Nat) : Bool :=
  decide (cellAt board i = some (nextDisk disk))

/-- The spec's captured run for one direction: the contiguous run of
opponent disks from the start of the ray, kept exactly when the first
cell after the run (still before the edge) holds `disk`'s own colour. -/
def capturedRun (board : List Cell) (disk : Disk) (index : Nat)
    (dir : Int × Int) : List Nat :=
  let ray := cellRay index dir
  let run := ray.takeWhile (isOpponent board disk)
  match ray.get? run.length with
  | some j => if cellAt board j = some disk then run else []
  | none => []

/-- capturedRun's acceptance, at the Option level (some = the direction's
walk ended on own colour), the shape scanDir computes. -/
def specScanOpt (board : List Cell) (disk : Disk) (ray : List Nat) :
    Option (List Nat) :=
  let run := ray.takeWhile (isOpponent board disk)
  match ray.get? run.length with
  | some j => if cellAt board j = some disk then some run else none
  | none => none

/-- The terminal room value handleTimeout builds (the deadline is cleared
by cleanupRoom before the snapshot is taken). -/
def timeoutRoom (room : RoomState) : RoomState :=
  { room with
      status := .finished
      winner := some (.disk (nextDisk room.currentDisk))
      statusMessage := DISK_LABEL (nextDisk room.currentDisk) ++ " wins by timeout."
      turnDeadline := none }

/-- Every room entry is stored under its own key (true of every room the
server creates: rooms.set(room.key, room)). -/
def RoomsCoherent (s : ServerState) : Prop :=
  ∀ p ∈ s.rooms, (p.2 : RoomState).key = p.1

/-- The shape every room in the live index keeps: a finished room is
dropped before the next event is processed, a waiting room carries no
winner and no deadline, a playing room carries no winner, both seats and
a deadline. -/
def RoomInv (room : RoomState) : Prop :=
  room.status ≠ .finished ∧
  (room.status = .waiting → room.winner = none ∧ room.turnDeadline = none) ∧
  (room.status = .playing → room.winner = none ∧ room.playerB ≠ none ∧
    room.playerW ≠ none ∧ room.turnDeadline ≠ none)

/-- The room-index invariant: every entry satisfies RoomInv and is stored
under its own key. -/
def RoomsInv (rooms : List (String × RoomState)) : Prop :=
  ∀ p ∈ rooms, RoomInv p.2 ∧ (p.2 : RoomState).key = p.1

/-! ## Concrete fixtures for witnesses and counterexamples -/

/-- A playing room fixture: fresh board, Black to move, seats p1/p2. -/
def fixRoom : RoomState :=
  { key := "ROOM01"
    board := createInitialBoard
    currentDisk := .B
    lastMove := none
    playerB := some "p1"
    playerW := some "p2"
    spectators := []
    status := .playing
    statusMessage := "Black to move first."
    createdAt := 0
    winner := none
    turnDeadline := some TURN_TIMEOUT_MS }

def fixMetaP1 : ClientMeta :=
  { id := "p1", status := .playing, roomKey := some "ROOM01",
    role := some .player, disk := some .B }

def fixMetaP2 : ClientMeta :=
  { id := "p2", status := .playing, roomKey := some "ROOM01",
    role := some .player, disk := some .W }

def fixMetaP3 : ClientMeta :=
  { id := "p3", status := .idle, roomKey := none, role := none, disk := none }

/-- A server holding the playing room and an idle bystander p3. -/
def fixState : ServerState :=
  { rooms := [("ROOM01", fixRoom)]
    clients := [("p1", fixMetaP1), ("p2", fixMetaP2), ("p3", fixMetaP3)]
    randomQueue := [] }

/-- The playing room with one spectator sp1. -/
def fixSpecRoom : RoomState := { fixRoom with spectators := ["sp1"] }

def fixMetaSp1 : ClientMeta :=
  { id := "sp1", status := .spectating, roomKey := some "ROOM01",
    role := some .spectator, disk := none }

def fixSpecState : ServerState :=
  { rooms := [("ROOM01", fixSpecRoom)]
    clients := [("p1", fixMetaP1), ("p2", fixMetaP2), ("sp1", fixMetaSp1)]
    randomQueue := [] }

/-- A waiting room fixture: host h1 seated on Black, second seat open. -/
def fixWaitRoom : RoomState :=
  { key := "ROOM02"
    board := createInitialBoard
    currentDisk := .B
    lastMove := none
    playerB := some "h1"
    playerW := none
    spectators := []
    status := .waiting
    statusMessage := "Waiting for opponent."
    createdAt := 0
    winner := none
    turnDeadline := none }

def fixMetaH1 : ClientMeta :=
  { id := "h1", status := .waiting, roomKey := some "ROOM02",
    role := some .player, disk := some .B }

def fixWaitState : ServerState :=
  { rooms := [("ROOM02", fixWaitRoom)]
    clients := [("h1", fixMetaH1), ("p3", fixMetaP3)]
    randomQueue := [] }

/-- A server with one idle client q1 already queued... (q0 idle, q1 in
the queue): used for the random-pairing witness. -/
def fixMetaQ1 : ClientMeta :=
  { id := "q1", status := .queue, roomKey := none, role := none, disk := none }

def fixMetaQ2 : ClientMeta :=
  { id := "q2", status := .idle, roomKey := none, role := none, disk := none }

def fixQueueState : ServerState :=
  { rooms := []
    clients := [("q1", fixMetaQ1), ("q2", fixMetaQ2)]
    randomQueue := ["q1"] }

/-- Reachable states used by witnesses: boot, connect p1, create a room
by key. -/
def reachState1 : ServerState := connectClient initialState "p1"

def reachState2 : ServerState :=
  (handleMessage reachState1 "p1" .keyCreate 0 "KEY" true).1

/-- The room reachState2 holds under "KEY". -/
def reachRoom : RoomState :=
  { key := "KEY"
    board := createInitialBoard
    currentDisk := .B
    lastMove := none
    playerB := some "p1"
    playerW := none
    spectators := []
    status := .waiting
    statusMessage := "Waiting for opponent."
    createdAt := 0
    winner := none
    turnDeadline := none }

/-- One event reaction of the server (5 of the spec: inbound message,
sweeper tick, new connection, eviction), with the wall clock and both
random draws universally quantified. -/
inductive ServerStep : ServerState → ServerState → Prop where
  | message (s : ServerState) (cid : String) (msg : InMsg) (now : Nat)
      (freshKey : String) (coin : Bool) :
      ServerStep s (handleMessage s cid msg now freshKey coin).1
  | sweepTick (s : ServerState) (now : Nat) : ServerStep s (sweep s now).1
  | connect (s : ServerState) (cid : String)
      (h : mapFind s.clients cid = none) : ServerStep s (connectClient s cid)
  | evict (s : ServerState) (cid : String) : ServerStep s (evictClient s cid).1

/-- The server states reachable from boot through the event loop. -/
def Reachable (s : ServerState) : Prop :=
  Relation.ReflTransGen ServerStep initialState s

/-! ## Association-list (Map) lemmas -/

theorem mapFind_mapSet {α : Type} (m : List (String × α)) (k k2 : String) (v : α) :
    mapFind (mapSet m k v) k2 = if k = k2 then some v else mapFind m k2 := by
  induction m with
  | nil => simp [mapSet, mapFind]
  | cons p rest ih =>
    obtain ⟨a, b⟩ := p
    by_cases hak : a = k
    · subst hak
      by_cases hk2 : a = k2 <;> simp [mapSet, mapFind, hk2]
    · by_cases hk2 : a = k2
      · subst hk2
        have : ¬k = a := fun h => hak h.symm
        simp [mapSet, mapFind, hak, this]
      · simp [mapSet, mapFind, hak, hk2, ih]

theorem mem_of_mapFind {α : Type} {m : List (String × α)} {k : String} {v : α}
    (h : mapFind m k = some v) : (k, v) ∈ m := by
  induction m with
  | nil => simp [mapFind] at h
  | cons p rest ih =>
    obtain ⟨a, b⟩ := p
    by_cases hak : a = k
    · subst hak
      simp [mapFind] at h
      simp [h]
    · simp [mapFind, hak] at h
      simp [ih h]

theorem mem_mapSet {α : Type} {m : List (String × α)} {k : String} {v : α}
    {p : String × α} (h : p ∈ mapSet m k v) : p = (k, v) ∨ p ∈ m := by
  induction m with
  | nil =>
    simp [mapSet] at h
    exact Or.inl h
  | cons q rest ih =>
    obtain ⟨a, b⟩ := q
    by_cases hak : a = k
    · subst hak
      simp [mapSet] at h
      rcases h with h | h
      · exact Or.inl (by simp [h])
      · exact Or.inr (by simp [h])
    · simp [mapSet, hak] at h
      rcases h with h | h
      · exact Or.inr (by simp [h])
      · rcases ih h with h2 | h2
        · exact Or.inl h2
        · exact Or.inr (by simp [h2])

theorem mem_mapDelete {α : Type} {m : List (String × α)} {k : String}
    {p : String × α} (h : p ∈ mapDelete m k) : p ∈ m := by
  induction m with
  | nil => simp [mapDelete] at h
  | cons q rest ih =>
    obtain ⟨a, b⟩ := q
    by_cases hak : a = k
    · subst hak
      simp [mapDelete] at h
      simp [h]
    · simp [mapDelete, hak] at h
      rcases h with h | h
      · simp [h]
      · simp [ih h]

theorem mapFind_mapDelete_ne {α : Type} (m : List (String × α)) {k k2 : String}
    (h : k ≠ k2) : mapFind (mapDelete m k) k2 = mapFind m k2 := by
  induction m with
  | nil => simp [mapDelete]
  | cons q rest ih =>
    obtain ⟨a, b⟩ := q
    by_cases hak : a = k
    · subst hak
      have hne : ¬a = k2 := fun hc => h hc
      simp [mapDelete, mapFind, hne]
    · by_cases hk2 : a = k2 <;>
        simp [mapDelete, mapFind, hak, hk2, ih, Ne.symm h]

theorem mapFind_eq_none_of_not_mem_keys {α : Type} {m : List (String × α)}
    {k : String} (h : k ∉ m.map Prod.fst) : mapFind m k = none := by
  induction m with
  | nil => simp [mapFind]
  | cons q rest ih =>
    obtain ⟨a, b⟩ := q
    simp only [List.map_cons, List.mem_cons] at h
    push_neg at h
    have hne : ¬a = k := fun hc => h.1 hc.symm
    simp [mapFind, hne, ih h.2]

theorem mapFind_mapDelete_self {α : Type} (m : List (String × α)) (k : String)
    (hnd : (m.map Prod.fst).Nodup) : mapFind (mapDelete m k) k = none := by
  induction m with
  | nil => simp [mapDelete, mapFind]
  | cons q rest ih =>
    obtain ⟨a, b⟩ := q
    simp only [List.map_cons, List.nodup_cons] at hnd
    by_cases hak : a = k
    · subst hak
      simp only [mapDelete, if_pos rfl]
      exact mapFind_eq_none_of_not_mem_keys hnd.1
    · simp [mapDelete, mapFind, hak, ih hnd.2]

theorem mem_mapDelete_mapSet {α : Type} {m : List (String × α)} {k : String}
    {v : α} {p : String × α} (h : p ∈ mapDelete (mapSet m k v) k) : p ∈ m := by
  induction m with
  | nil => simp [mapSet, mapDelete] at h
  | cons q rest ih =>
    obtain ⟨a, b⟩ := q
    by_cases hak : a = k
    · subst hak
      simp [mapSet, mapDelete] at h
      simp [h]
    · simp only [mapSet, if_neg hak, mapDelete, if_neg hak] at h
      rcases (List.mem_cons.mp h) with h2 | h2
      · simp [h2]
      · simp [ih h2]

/-! ## Disk lemmas -/

theorem nextDisk_nextDisk (d : Disk) : nextDisk (nextDisk d) = d := by
  cases d <;> rfl

theorem nextDisk_ne (d : Disk) : nextDisk d ≠ d := by
  cases d <;> decide

theorem eq_nextDisk_of_ne {a b : Disk} (h : a ≠ b) : a = nextDisk b := by
  cases a <;> cases b <;> simp_all [nextDisk]

/-! ## C7 machinery: the scan equals the spec's captured-run description -/

theorem specScanOpt_nil (board : List Cell) (disk : Disk) :
    specScanOpt board disk [] = none := rfl

theorem specScanOpt_cons_empty (board : List Cell) (disk : Disk) (idx : Nat)
    (ray : List Nat) (h : cellAt board idx = none) :
    specScanOpt board disk (idx :: ray) = none := by
  unfold specScanOpt
  rw [List.takeWhile_cons]
  simp [isOpponent, h]

theorem specScanOpt_cons_own (board : List Cell) (disk : Disk) (idx : Nat)
    (ray : List Nat) (h : cellAt board idx = some disk) :
    specScanOpt board disk (idx :: ray) = some [] := by
  unfold specScanOpt
  rw [List.takeWhile_cons]
  simp [isOpponent, h, Ne.symm (nextDisk_ne disk)]

theorem specScanOpt_cons_opponent (board : List Cell) (disk : Disk) (idx : Nat)
    (ray : List Nat) (h : cellAt board idx = some (nextDisk disk)) :
    specScanOpt board disk (idx :: ray) =
      (specScanOpt board disk ray).map (fun cap => idx :: cap) := by
  have hp : isOpponent board disk idx = true := by simp [isOpponent, h]
  unfold specScanOpt
  rw [List.takeWhile_cons_of_pos hp]
  simp only [List.length_cons, List.get?_eq_getElem?, List.getElem?_cons_succ]
  rcases hj : ray[(List.takeWhile (isOpponent board disk) ray).length]?
      with _ | j
  · simp
  · by_cases hown : cellAt board j = some disk <;> simp [hown]

theorem scanDir_eq_specScanOpt (board : List Cell) (disk : Disk)
    (dRow dCol : Int) : ∀ (fuel : Nat) (r c : Int),
    scanDir board disk dRow dCol fuel r c =
      specScanOpt board disk (rayIndices dRow dCol fuel r c) := by
  intro fuel
  induction fuel with
  | zero => intro r c; rfl
  | succ n ih =>
    intro r c
    by_cases hb : isInBounds r c
    · rw [scanDir, rayIndices]
      simp only [hb, if_true]
      rcases hcell : cellAt board (toIndex r c) with _ | occ
      · rw [specScanOpt_cons_empty board disk _ _ hcell]
      · by_cases hocc : occ = disk
        · subst hocc
          rw [specScanOpt_cons_own board occ _ _ hcell]
          simp
        · have hop : occ = nextDisk disk := eq_nextDisk_of_ne hocc
          subst hop
          rw [specScanOpt_cons_opponent board disk _ _ hcell]
          simp only [if_neg hocc]
          rw [ih]
    · rw [scanDir, rayIndices]
      simp only [hb, if_false, Bool.false_eq_true]
      exact (specScanOpt_nil board disk).symm

theorem capturedRun_eq_getD (board : List Cell) (disk : Disk) (index : Nat)
    (dir : Int × Int) :
    capturedRun board disk index dir =
      (specScanOpt board disk (cellRay index dir)).getD [] := by
  simp only [capturedRun, specScanOpt]
  rcases hj : (cellRay index dir).get?
      (((cellRay index dir).takeWhile (isOpponent board disk)).length) with _ | j
  · rfl
  · by_cases hown : cellAt board j = some disk <;> simp [hown]

theorem cellFlips_eq_capturedRuns (board : List Cell) (disk : Disk)
    (index : Nat) :
    cellFlips board disk index =
      (DIRECTIONS.map (capturedRun board disk index)).flatten := by
  simp only [cellFlips]
  congr 1
  apply List.map_congr_left
  intro d _
  rw [scanDir_eq_specScanOpt, capturedRun_eq_getD]
  rfl

theorem flatten_map_ne_nil_iff {α : Type} (f : α → List Nat) (l : List α) :
    (l.map f).flatten ≠ [] ↔ ∃ x ∈ l, f x ≠ [] := by
  rw [ne_eq, List.flatten_eq_nil_iff]
  push_neg
  constructor
  · rintro ⟨y, hy, hne⟩
    obtain ⟨x, hx, rfl⟩ := List.mem_map.mp hy
    exact ⟨x, hx, hne⟩
  · rintro ⟨x, hx, hne⟩
    exact ⟨f x, List.mem_map.mpr ⟨x, hx, rfl⟩, hne⟩

theorem mem_computeValidMoves (board : List Cell) (disk : Disk) (index : Nat)
    (flips : List Nat) :
    (index, flips) ∈ computeValidMoves board disk ↔
      board.get? index = some none ∧ cellFlips board disk index ≠ [] ∧
        flips = cellFlips board disk index := by
  rw [computeValidMoves, List.mem_filterMap]
  constructor
  · rintro ⟨⟨i, cell⟩, hmem, hf⟩
    rw [List.mem_enum_iff_getElem?] at hmem
    rcases cell with _ | d
    · by_cases hfl : cellFlips board disk i = []
      · simp [hfl] at hf
      · simp [hfl] at hf
        obtain ⟨h1, h2⟩ := hf
        subst h1
        rw [List.get?_eq_getElem?]
        exact ⟨hmem, hfl, h2.symm⟩
    · simp at hf
  · rintro ⟨hcell, hne, rfl⟩
    refine ⟨(index, none), ?_, ?_⟩
    · rw [List.mem_enum_iff_getElem?, ← List.get?_eq_getElem?]
      exact hcell
    · simp [hne]

/-- C7: `legalMoves(board, disk)` maps each kept empty cell to a non-empty
flip list; an empty cell is a key exactly when at least one of the 8
directions holds a non-empty contiguous run of opponent disks terminated
by the mover's own colour (before an empty cell or the edge), and the flip
list is the concatenation of the directions' captured runs. -/
theorem computeValidMoves_spec (board : List Cell) (disk : Disk) :
    (∀ entry ∈ computeValidMoves board disk, entry.2 ≠ []) ∧
    (∀ (index : Nat) (flips : List Nat),
      (index, flips) ∈ computeValidMoves board disk ↔
        (board.get? index = some none ∧
          (∃ dir ∈ DIRECTIONS, capturedRun board disk index dir ≠ []) ∧
          flips = (DIRECTIONS.map (capturedRun board disk index)).flatten)) := by
  constructor
  · rintro ⟨index, flips⟩ hmem
    obtain ⟨-, hne, hfl⟩ := (mem_computeValidMoves board disk index flips).mp hmem
    show flips ≠ []
    rw [hfl]
    exact hne
  · intro index flips
    rw [mem_computeValidMoves, cellFlips_eq_capturedRuns,
      flatten_map_ne_nil_iff]

/-! ## C8 machinery: applyMove's frame -/

theorem setJs_of_lt (b : List Cell) (i : Nat) (v : Cell) (h : i < b.length) :
    setJs b i v = b.set i v := by
  simp [setJs, h]

theorem foldl_setJs_length (disk : Disk) :
    ∀ (flips : List Nat) (acc : List Cell), (∀ f ∈ flips, f < acc.length) →
      (flips.foldl (fun next flipIndex => setJs next flipIndex (some disk))
        acc).length = acc.length := by
  intro flips
  induction flips with
  | nil => intro acc _; rfl
  | cons f rest ih =>
    intro acc hf
    have hflen : f < acc.length := hf f (by simp)
    rw [List.foldl_cons, setJs_of_lt acc f _ hflen]
    rw [ih (acc.set f (some disk))
      (fun g hg => by rw [List.length_set]; exact hf g (by simp [hg]))]
    exact List.length_set ..

theorem foldl_setJs_get? (disk : Disk) :
    ∀ (flips : List Nat) (acc : List Cell), (∀ f ∈ flips, f < acc.length) →
      ∀ (j : Nat),
      (flips.foldl (fun next flipIndex => setJs next flipIndex (some disk))
        acc).get? j =
        if j ∈ flips then some (some disk) else acc.get? j := by
  intro flips
  induction flips with
  | nil => intro acc _ j; simp
  | cons f rest ih =>
    intro acc hf j
    have hflen : f < acc.length := hf f (by simp)
    rw [List.foldl_cons, setJs_of_lt acc f _ hflen]
    rw [ih (acc.set f (some disk))
      (fun g hg => by rw [List.length_set]; exact hf g (by simp [hg])) j]
    by_cases hjr : j ∈ rest
    · simp [hjr]
    · rw [if_neg hjr]
      by_cases hjf : j = f
      · subst hjf
        rw [if_pos (List.mem_cons_self ..)]
        exact List.get?_set_eq_of_lt _ hflen
      · rw [if_neg (by simp [hjf, hjr])]
        exact List.get?_set_ne _ _ (fun h => hjf h.symm)

theorem countDisks_go (l : List Cell) : ∀ (acc : Scores),
    l.foldl countStep acc =
      ⟨acc.B + (countDisks l).B, acc.W + (countDisks l).W⟩ := by
  induction l with
  | nil => intro acc; simp [countDisks]
  | cons c rest ih =>
    intro acc
    have hc : countDisks (c :: rest) = rest.foldl countStep (countStep ⟨0, 0⟩ c) :=
      rfl
    rw [List.foldl_cons, ih (countStep acc c), hc, ih (countStep ⟨0, 0⟩ c)]
    rcases c with _ | d
    · simp [countStep]
    · rcases d <;> simp [countStep, Scores.mk.injEq] <;> omega

theorem count_partition (board : List Cell) :
    (countDisks board).B + (countDisks board).W + countEmpty board =
      board.length := by
  induction board with
  | nil => rfl
  | cons c rest ih =>
    have hc : countDisks (c :: rest) = rest.foldl countStep (countStep ⟨0, 0⟩ c) :=
      rfl
    rw [hc, countDisks_go rest (countStep ⟨0, 0⟩ c)]
    rcases c with _ | d
    · simp only [countStep, countEmpty, List.filter_cons] at *
      simp at *
      omega
    · rcases d <;>
        (simp only [countStep, countEmpty, List.filter_cons] at *
         simp at *
         omega)

/-- C8 (amended to in-range writes): applyMove puts `disk` at the move
index and at every flip index, leaves every other cell of the board as it
was, keeps the cell count, and the disk counts plus the empty count still
sum to the board size.  Being a pure function of its arguments, it cannot
change its input.  An out-of-range write extends a JS array instead (see
the counterexample), but every index the server passes comes out of
computeValidMoves, hence is in range. -/
theorem applyMove_frame (board : List Cell) (index : Nat) (disk : Disk)
    (flips : List Nat) (hidx : index < board.length)
    (hf : ∀ f ∈ flips, f < board.length) :
    (applyMove board index disk flips).length = board.length ∧
    (∀ j : Nat, (applyMove board index disk flips).get? j =
      if j = index ∨ j ∈ flips then some (some disk) else board.get? j) ∧
    (countDisks (applyMove board index disk flips)).B +
      (countDisks (applyMove board index disk flips)).W +
      countEmpty (applyMove board index disk flips) = board.length := by
  have hbase : setJs board index (some disk) = board.set index (some disk) :=
    setJs_of_lt board index _ hidx
  have hsetlen : ∀ f ∈ flips, f < (board.set index (some disk)).length :=
    fun f hfm => by rw [List.length_set]; exact hf f hfm
  have hlen : (applyMove board index disk flips).length = board.length := by
    unfold applyMove
    rw [hbase, foldl_setJs_length disk flips (board.set index (some disk)) hsetlen]
    exact List.length_set ..
  refine ⟨hlen, ?_, ?_⟩
  · intro j
    unfold applyMove
    rw [hbase, foldl_setJs_get? disk flips (board.set index (some disk)) hsetlen j]
    by_cases hjf : j ∈ flips
    · simp [hjf]
    · rw [if_neg hjf]
      by_cases hji : j = index
      · subst hji
        rw [if_pos (Or.inl rfl)]
        exact List.get?_set_eq_of_lt _ hidx
      · rw [if_neg (by simp [hji, hjf])]
        exact List.get?_set_ne _ _ (fun h => hji h.symm)
  · rw [← hlen]
    exact count_partition (applyMove board index disk flips)

/-- C8 witness: the opening move of a game, Black to 19 flipping 27. -/
theorem applyMove_frame_witness :
    (applyMove createInitialBoard 19 Disk.B [27]).length =
      createInitialBoard.length :=
  (applyMove_frame createInitialBoard 19 Disk.B [27] (by decide)
    (by decide)).1

/-- C8 counterexample to the claim as stated for every index: writing one
past the end of the 64-cell board grows the JS array, so the cell count
changes. -/
theorem applyMove_length_cex :
    (applyMove createInitialBoard 64 Disk.B []).length ≠
      createInitialBoard.length := by
  decide

/-! ## More map lemmas: keys stay duplicate-free -/

theorem mem_keys_mapSet {α : Type} {m : List (String × α)} {k k2 : String}
    {v : α} (h : k2 ∈ (mapSet m k v).map Prod.fst) :
    k2 = k ∨ k2 ∈ m.map Prod.fst := by
  obtain ⟨p, hp, rfl⟩ := List.mem_map.mp h
  rcases mem_mapSet hp with h2 | h2
  · subst h2
    exact Or.inl rfl
  · exact Or.inr (List.mem_map.mpr ⟨p, h2, rfl⟩)

theorem nodup_keys_mapSet {α : Type} {m : List (String × α)} {k : String}
    {v : α} (h : (m.map Prod.fst).Nodup) :
    ((mapSet m k v).map Prod.fst).Nodup := by
  induction m with
  | nil => simp [mapSet]
  | cons q rest ih =>
    obtain ⟨a, b⟩ := q
    by_cases hak : a = k
    · subst hak
      simpa [mapSet] using h
    · simp only [List.map_cons, List.nodup_cons] at h
      simp only [mapSet, if_neg hak, List.map_cons, List.nodup_cons]
      refine ⟨fun hm => ?_, ih h.2⟩
      rcases mem_keys_mapSet hm with h2 | h2
      · exact hak h2
      · exact h.1 h2

/-! ## Post-move status recomputation (transition 5 of the spec) -/

theorem ensureRoomTurn_playing_hasMoves (room : RoomState)
    (hp : room.status = .playing)
    (hm : computeValidMoves room.board room.currentDisk ≠ []) :
    ensureRoomTurn room =
      { room with
          statusMessage := DISK_LABEL room.currentDisk ++ " to move." } := by
  unfold ensureRoomTurn deriveStatusMessage
  rw [if_neg (by rw [hp]; intro h; exact RoomStatus.noConfusion h),
    if_neg (by rw [hp]; intro h; exact RoomStatus.noConfusion h)]
  rw [if_pos (by simpa [List.length_pos] using hm)]

theorem ensureRoomTurn_playing_pass (room : RoomState)
    (hp : room.status = .playing)
    (hm : computeValidMoves room.board room.currentDisk = [])
    (hm2 : computeValidMoves room.board (nextDisk room.currentDisk) ≠ []) :
    ensureRoomTurn room =
      { room with
          currentDisk := nextDisk room.currentDisk
          statusMessage := DISK_LABEL room.currentDisk ++ " has no moves. "
            ++ DISK_LABEL (nextDisk room.currentDisk) ++ " plays again." } := by
  unfold ensureRoomTurn deriveStatusMessage
  rw [if_neg (by rw [hp]; intro h; exact RoomStatus.noConfusion h),
    if_neg (by rw [hp]; intro h; exact RoomStatus.noConfusion h)]
  rw [if_neg (by simp [hm]), if_neg (by simpa using hm2)]

theorem ensureRoomTurn_playing_end (room : RoomState)
    (hp : room.status = .playing)
    (hm : computeValidMoves room.board room.currentDisk = [])
    (hm2 : computeValidMoves room.board (nextDisk room.currentDisk) = []) :
    ensureRoomTurn room =
      (if (countDisks room.board).B = (countDisks room.board).W then
        { room with
            status := .finished
            winner := some .draw
            statusMessage := "Game over — it's a draw."
            turnDeadline := none }
      else
        { room with
            status := .finished
            winner := some (.disk (if (countDisks room.board).B >
              (countDisks room.board).W then .B else .W))
            statusMessage := DISK_LABEL (if (countDisks room.board).B >
                (countDisks room.board).W then Disk.B else Disk.W)
              ++ " controls the board " ++ toString (countDisks room.board).B
              ++ "-" ++ toString (countDisks room.board).W ++ "."
            turnDeadline := none }) := by
  unfold ensureRoomTurn deriveStatusMessage
  rw [if_neg (by rw [hp]; intro h; exact RoomStatus.noConfusion h),
    if_neg (by rw [hp]; intro h; exact RoomStatus.noConfusion h)]
  rw [if_neg (by simp [hm]), if_pos (by simp [hm2])]

theorem refreshTurnDeadline_playing (room : RoomState) (now : Nat)
    (hp : room.status = .playing) :
    refreshTurnDeadline room now =
      { room with turnDeadline := some (now + TURN_TIMEOUT_MS) } := by
  unfold refreshTurnDeadline
  rw [if_pos hp]

theorem refreshTurnDeadline_not_playing (room : RoomState) (now : Nat)
    (hp : room.status ≠ .playing) :
    refreshTurnDeadline room now = { room with turnDeadline := none } := by
  unfold refreshTurnDeadline
  rw [if_neg hp]

theorem deriveStatusMessage_frame (room : RoomState) :
    (deriveStatusMessage room).board = room.board ∧
    (deriveStatusMessage room).lastMove = room.lastMove ∧
    (deriveStatusMessage room).key = room.key ∧
    (deriveStatusMessage room).playerB = room.playerB ∧
    (deriveStatusMessage room).playerW = room.playerW ∧
    (deriveStatusMessage room).spectators = room.spectators := by
  unfold deriveStatusMessage
  by_cases hf : room.status = .finished
  · rw [if_pos hf]
    rcases hw : room.winner with _ | w
    · simp [hw]
    · rcases w with w | _
      · simp [hw]
      · simp [hw]
  · rw [if_neg hf]
    by_cases h1 : (computeValidMoves room.board room.currentDisk).length > 0
    · simp [h1]
    · simp only [h1, if_false]
      by_cases h2 :
          (computeValidMoves room.board (nextDisk room.currentDisk)).length = 0
      · simp only [h2, if_true]
        by_cases h3 : (countDisks room.board).B = (countDisks room.board).W <;>
          simp [h3]
      · simp [h2]

theorem ensureRoomTurn_frame (room : RoomState) :
    (ensureRoomTurn room).board = room.board ∧
    (ensureRoomTurn room).lastMove = room.lastMove ∧
    (ensureRoomTurn room).key = room.key ∧
    (ensureRoomTurn room).playerB = room.playerB ∧
    (ensureRoomTurn room).playerW = room.playerW ∧
    (ensureRoomTurn room).spectators = room.spectators := by
  unfold ensureRoomTurn
  split
  · simp
  · exact deriveStatusMessage_frame room

theorem refreshTurnDeadline_frame (room : RoomState) (now : Nat) :
    (refreshTurnDeadline room now).board = room.board ∧
    (refreshTurnDeadline room now).lastMove = room.lastMove ∧
    (refreshTurnDeadline room now).key = room.key ∧
    (refreshTurnDeadline room now).status = room.status ∧
    (refreshTurnDeadline room now).currentDisk = room.currentDisk ∧
    (refreshTurnDeadline room now).winner = room.winner ∧
    (refreshTurnDeadline room now).playerB = room.playerB ∧
    (refreshTurnDeadline room now).playerW = room.playerW := by
  unfold refreshTurnDeadline
  split <;> simp

/-- handleMove on a legal move, reduced to the post-move pipeline. -/
theorem handleMove_legal_eq (s : ServerState) (cid roomKey : String)
    (meta : ClientMeta) (room : RoomState) (d : Disk) (index : Nat)
    (flips : List Nat) (now : Nat)
    (hmeta : mapFind s.clients cid = some meta)
    (hrk : meta.roomKey = some roomKey) (hrole : meta.role = some .player)
    (hdisk : meta.disk = some d)
    (hroom : mapFind s.rooms roomKey = some room)
    (hstatus : room.status = .playing) (hturn : room.currentDisk = d)
    (hlegal : lookupMove (computeValidMoves room.board d) index = some flips) :
    handleMove s cid index now =
      (let moved := { room with
          board := applyMove room.board index d flips
          lastMove := some index
          currentDisk := nextDisk d }
       let turned := ensureRoomTurn moved
       let room2 := refreshTurnDeadline turned now
       let s1 := { s with rooms := mapSet s.rooms roomKey room2 }
       let msgs := broadcastRoom s1 room2 (.matchUpdate (toStatePayload room2))
       if turned.status = .finished then
         let r := cleanupRoom s1 room2 "completed"
         (r.1, msgs ++ r.2)
       else (s1, msgs)) := by
  simp only [handleMove, hmeta, hrk, hrole, hdisk, hroom, hturn, hstatus,
    hlegal, ne_eq, not_true_eq_false, if_false, reduceIte]

theorem releaseClient_rooms (s : ServerState) (c : Option String) :
    (releaseClient s c).rooms = s.rooms := by
  unfold releaseClient
  rcases c with _ | cid
  · rfl
  · rcases h : mapFind s.clients cid with _ | m <;> simp [h]

theorem foldl_releaseClient_rooms : ∀ (l : List String) (s : ServerState),
    (l.foldl (fun acc sid => releaseClient acc (some sid)) s).rooms =
      s.rooms := by
  intro l
  induction l with
  | nil => intro s; rfl
  | cons x rest ih =>
    intro s
    rw [List.foldl_cons, ih, releaseClient_rooms]

theorem releaseRoomOccupants_rooms (s : ServerState) (room : RoomState) :
    (releaseRoomOccupants s room).1.rooms = s.rooms := by
  unfold releaseRoomOccupants
  dsimp only
  rw [foldl_releaseClient_rooms, releaseClient_rooms, releaseClient_rooms]

theorem cleanupRoom_rooms (s : ServerState) (room : RoomState)
    (reason : String) :
    (cleanupRoom s room reason).1.rooms = mapDelete s.rooms room.key := by
  unfold cleanupRoom
  dsimp only
  rw [releaseRoomOccupants_rooms]

/-- C1: a move whose index is legal for the seated player on turn in a
playing room is applied: the room's board becomes applyMove's result, the
index is recorded as last-move, and status is recomputed — if the other
disk has legal moves the room stays playing with the turn advanced and the
deadline refreshed; if the other disk has none but the mover does, the
turn passes back to the mover and the room stays playing; if neither disk
has moves the room becomes finished with the majority disk as winner
(draw on equal counts) and the deadline cleared (the finished room is then
broadcast and dropped from the index). -/
theorem handleMove_legal_spec (s : ServerState) (cid roomKey : String)
    (meta : ClientMeta) (room : RoomState) (d : Disk) (index : Nat)
    (flips : List Nat) (now : Nat)
    (hmeta : mapFind s.clients cid = some meta)
    (hrk : meta.roomKey = some roomKey) (hrole : meta.role = some .player)
    (hdisk : meta.disk = some d)
    (hroom : mapFind s.rooms roomKey = some room)
    (hstatus : room.status = .playing) (hturn : room.currentDisk = d)
    (hlegal : lookupMove (computeValidMoves room.board d) index = some flips)
    (hkey : room.key = roomKey)
    (hnd : (s.rooms.map Prod.fst).Nodup) :
    ∃ roomAfter : RoomState,
      roomAfter.board = applyMove room.board index d flips ∧
      roomAfter.lastMove = some index ∧
      (computeValidMoves (applyMove room.board index d flips) (nextDisk d) ≠ [] →
        roomAfter.status = .playing ∧ roomAfter.currentDisk = nextDisk d ∧
        roomAfter.turnDeadline = some (now + TURN_TIMEOUT_MS) ∧
        mapFind (handleMove s cid index now).1.rooms roomKey = some roomAfter) ∧
      (computeValidMoves (applyMove room.board index d flips) (nextDisk d) = [] →
        computeValidMoves (applyMove room.board index d flips) d ≠ [] →
        roomAfter.status = .playing ∧ roomAfter.currentDisk = d ∧
        roomAfter.turnDeadline = some (now + TURN_TIMEOUT_MS) ∧
        mapFind (handleMove s cid index now).1.rooms roomKey = some roomAfter) ∧
      (computeValidMoves (applyMove room.board index d flips) (nextDisk d) = [] →
        computeValidMoves (applyMove room.board index d flips) d = [] →
        roomAfter.status = .finished ∧
        roomAfter.winner = some
          (if (countDisks (applyMove room.board index d flips)).B =
              (countDisks (applyMove room.board index d flips)).W then .draw
           else if (countDisks (applyMove room.board index d flips)).B >
              (countDisks (applyMove room.board index d flips)).W then .disk .B
           else .disk .W) ∧
        roomAfter.turnDeadline = none ∧
        mapFind (handleMove s cid index now).1.rooms roomKey = none) := by
  have heq := handleMove_legal_eq s cid roomKey meta room d index flips now
    hmeta hrk hrole hdisk hroom hstatus hturn hlegal
  set board2 := applyMove room.board index d flips with hb2
  set moved : RoomState := { room with
      board := board2
      lastMove := some index
      currentDisk := nextDisk d } with hmoved
  have hms : moved.status = RoomStatus.playing := hstatus
  refine ⟨refreshTurnDeadline (ensureRoomTurn moved) now, ?_, ?_, ?_, ?_, ?_⟩
  · rw [(refreshTurnDeadline_frame _ _).1, (ensureRoomTurn_frame _).1]
  · rw [(refreshTurnDeadline_frame _ _).2.1, (ensureRoomTurn_frame _).2.1]
  · intro h1
    have hens := ensureRoomTurn_playing_hasMoves moved hms h1
    have hts : (ensureRoomTurn moved).status = RoomStatus.playing := by
      rw [hens]
      exact hms
    refine ⟨(refreshTurnDeadline_frame _ _).2.2.2.1.trans hts, ?_, ?_, ?_⟩
    · rw [(refreshTurnDeadline_frame _ _).2.2.2.2.1, hens]
    · rw [refreshTurnDeadline_playing _ _ hts]
    · rw [heq]
      dsimp only
      rw [if_neg (by rw [hts]; intro h; exact RoomStatus.noConfusion h)]
      dsimp only
      rw [mapFind_mapSet, if_pos rfl]
  · intro h1 h2
    have hm2 : computeValidMoves moved.board (nextDisk moved.currentDisk) ≠ [] := by
      show computeValidMoves board2 (nextDisk (nextDisk d)) ≠ []
      rw [nextDisk_nextDisk]
      exact h2
    have hens := ensureRoomTurn_playing_pass moved hms h1 hm2
    have hts : (ensureRoomTurn moved).status = RoomStatus.playing := by
      rw [hens]
      exact hms
    refine ⟨(refreshTurnDeadline_frame _ _).2.2.2.1.trans hts, ?_, ?_, ?_⟩
    · rw [(refreshTurnDeadline_frame _ _).2.2.2.2.1, hens]
      show nextDisk (nextDisk d) = d
      exact nextDisk_nextDisk d
    · rw [refreshTurnDeadline_playing _ _ hts]
    · rw [heq]
      dsimp only
      rw [if_neg (by rw [hts]; intro h; exact RoomStatus.noConfusion h)]
      dsimp only
      rw [mapFind_mapSet, if_pos rfl]
  · intro h1 h2
    have hm2 : computeValidMoves moved.board (nextDisk moved.currentDisk) = [] := by
      show computeValidMoves board2 (nextDisk (nextDisk d)) = []
      rw [nextDisk_nextDisk]
      exact h2
    have hens := ensureRoomTurn_playing_end moved hms h1 hm2
    have hts : (ensureRoomTurn moved).status = RoomStatus.finished := by
      rw [hens]
      by_cases h3 : (countDisks moved.board).B = (countDisks moved.board).W <;>
        simp [h3]
    refine ⟨(refreshTurnDeadline_frame _ _).2.2.2.1.trans hts, ?_, ?_, ?_⟩
    · rw [(refreshTurnDeadline_frame _ _).2.2.2.2.2.1, hens]
      by_cases h3 : (countDisks board2).B = (countDisks board2).W
      · simp [h3]
      · by_cases h4 : (countDisks board2).B > (countDisks board2).W <;>
          simp [h3, h4]
    · have hnp : (ensureRoomTurn moved).status ≠ RoomStatus.playing := by
        rw [hts]
        intro h
        exact RoomStatus.noConfusion h
      rw [refreshTurnDeadline_not_playing _ _ hnp]
    · rw [heq]
      dsimp only
      rw [if_pos hts]
      dsimp only
      rw [cleanupRoom_rooms]
      have hrk2 : (refreshTurnDeadline (ensureRoomTurn moved) now).key = roomKey := by
        rw [(refreshTurnDeadline_frame _ _).2.2.1, (ensureRoomTurn_frame _).2.2.1]
        exact hkey
      rw [hrk2]
      exact mapFind_mapDelete_self _ roomKey (nodup_keys_mapSet hnd)

/-- C1 witness: Black opens with 19 (flipping 27) in the fixture room;
White then has moves, so the room stays in the index, playing, with the
turn advanced to White, the move recorded, and the deadline refreshed. -/
theorem handleMove_legal_spec_witness :
    mapFind (handleMove fixState "p1" 19 1000).1.rooms "ROOM01" ≠ none := by
  obtain ⟨roomAfter, -, -, hcase, -, -⟩ :=
    handleMove_legal_spec fixState "p1" "ROOM01" fixMetaP1 fixRoom Disk.B 19
      [27] 1000 rfl rfl rfl rfl rfl rfl rfl (by decide) rfl (by decide)
  have h1 : computeValidMoves (applyMove fixRoom.board 19 Disk.B [27])
      (nextDisk Disk.B) ≠ [] := by decide
  rw [(hcase h1).2.2.2]
  simp

/-- C2 (amended): every precondition-violating intent leaves all shared
state unchanged, but the reply differs by case: a move from a client who
is not bound to a room as a player with a disk, or whose room is missing,
not playing, or not on their turn, is silently dropped with no reply; a
move to an illegal index is answered with an error; a queue-join from an
already-queued session is re-acknowledged with queue-status searching
rather than an error; a queue-join from a session in a room and a key-join
from any non-idle session are answered with an error. -/
theorem invalid_intents_spec (s : ServerState) (cid : String)
    (meta : ClientMeta) (index now : Nat) (freshKey k : String) (coin : Bool)
    (hmeta : mapFind s.clients cid = some meta) :
    ((meta.roomKey = none ∨ meta.role ≠ some .player ∨ meta.disk = none) →
      handleMove s cid index now = (s, [])) ∧
    (∀ (roomKey : String) (room : RoomState) (d : Disk),
      meta.roomKey = some roomKey → meta.role = some .player →
      meta.disk = some d → mapFind s.rooms roomKey = some room →
      ((room.status ≠ .playing → handleMove s cid index now = (s, [])) ∧
       (room.status = .playing → room.currentDisk ≠ d →
         handleMove s cid index now = (s, [])) ∧
       (room.status = .playing → room.currentDisk = d →
         lookupMove (computeValidMoves room.board d) index = none →
         handleMove s cid index now =
           (s, [(cid, .error "Invalid move.")])))) ∧
    (meta.status = .queue →
      handleRandomJoin s cid freshKey coin now =
        (s, [(cid, .queueStatus true)])) ∧
    (meta.status ≠ .idle → meta.status ≠ .queue →
      handleRandomJoin s cid freshKey coin now =
        (s, [(cid, .error "Leave your current session before re-queueing.")])) ∧
    (meta.status ≠ .idle →
      handleKeyJoin s cid k now =
        (s, [(cid,
          .error "Leave your current session before joining another match.")])) := by
  refine ⟨?_, ?_, ?_, ?_, ?_⟩
  · intro hor
    rcases hrk : meta.roomKey with _ | roomKey
    · simp [handleMove, hmeta, hrk]
    · rcases hrole : meta.role with _ | r
      · simp [handleMove, hmeta, hrk, hrole]
      · rcases r
        · rcases hdisk : meta.disk with _ | dd
          · simp [handleMove, hmeta, hrk, hrole, hdisk]
          · exfalso
            rcases hor with h | h | h
            · rw [hrk] at h
              exact Option.noConfusion h
            · exact h hrole
            · rw [hdisk] at h
              exact Option.noConfusion h
        · simp [handleMove, hmeta, hrk, hrole]
  · intro roomKey room d hrk hrole hdisk hroom
    refine ⟨?_, ?_, ?_⟩
    · intro hst
      simp [handleMove, hmeta, hrk, hrole, hdisk, hroom, hst]
    · intro hst hcd
      simp [handleMove, hmeta, hrk, hrole, hdisk, hroom, hst, hcd]
    · intro hst hcd hlook
      simp only [handleMove, hmeta, hrk, hrole, hdisk, hroom, hst, hcd, hlook,
        ne_eq, not_true_eq_false, if_false, reduceIte]
  · intro hq
    simp [handleRandomJoin, hmeta, hq]
  · intro h1 h2
    simp [handleRandomJoin, hmeta, h1, h2]
  · intro h1
    simp [handleKeyJoin, hmeta, h1]

/-- C2 witness: a key-join by p1, who is already playing, is refused with
an error and no state change. -/
theorem invalid_intents_spec_witness :
    handleKeyJoin fixState "p1" "ZZZ" 5 =
      (fixState,
        [("p1",
          OutMsg.error "Leave your current session before joining another match.")]) :=
  (invalid_intents_spec fixState "p1" fixMetaP1 0 5 "FK" "ZZZ" true
    rfl).2.2.2.2 (by decide)

/-- C2 counterexample to the claim as stated: a move by p3, who is not a
seated player of any room, draws no reply at all (the claim requires an
error reply to the sender); the state is unchanged either way. -/
theorem handleMove_silent_cex :
    handleMove fixState "p3" 19 1000 = (fixState, []) := rfl

/-- C9 (amended): an unparseable message, an unknown non-empty kind, and
a known kind missing its required field are each answered with an error
to the sender only, and no shared state changes; a parsed envelope whose
type field is missing or empty is silently dropped (still with no state
change). -/
theorem protocol_errors_spec (s : ServerState) (cid : String) (now : Nat)
    (freshKey t : String) (coin : Bool) :
    handleMessage s cid .unparseable now freshKey coin =
      (s, [(cid, .error "Malformed message.")]) ∧
    handleMessage s cid (.unknownType t) now freshKey coin =
      (s, [(cid, .error ("Unknown message type: " ++ t))]) ∧
    handleMessage s cid (.keyJoin none) now freshKey coin =
      (s, [(cid, .error "matchKey is required.")]) ∧
    handleMessage s cid (.spectateJoin none) now freshKey coin =
      (s, [(cid, .error "matchKey is required.")]) ∧
    handleMessage s cid (.move none) now freshKey coin =
      (s, [(cid, .error "index is required.")]) ∧
    handleMessage s cid .emptyType now freshKey coin = (s, []) :=
  ⟨rfl, rfl, rfl, rfl, rfl, rfl⟩

/-- C9 counterexample to the claim as stated: a parsed message with no
(or an empty) type field is dropped without any reply, although the claim
requires an error reply for every inbound message that is not a
well-formed known kind. -/
theorem emptyType_silent_cex :
    handleMessage fixState "p3" .emptyType 0 "FK" true = (fixState, []) := rfl

/-- handleLeave by a spectator, reduced. -/
theorem handleLeave_spectator_eq (s : ServerState) (cid roomKey : String)
    (meta : ClientMeta) (room : RoomState)
    (hmeta : mapFind s.clients cid = some meta)
    (hid : meta.id = cid)
    (hst : meta.status = .spectating)
    (hrk : meta.roomKey = some roomKey)
    (hrole : meta.role = some .spectator)
    (hroom : mapFind s.rooms roomKey = some room) :
    handleLeave s cid =
      (let room2 := { room with spectators := room.spectators.erase cid }
       let s1 := { s with rooms := mapSet s.rooms roomKey room2 }
       let msgs := broadcastRoom s1 room2 (.matchUpdate (toStatePayload room2))
       ({ s1 with
           clients := mapSet s1.clients cid
             { meta with status := .idle, role := none, roomKey := none } },
         msgs)) := by
  simp only [handleLeave, hmeta, hid, hst, hrk, hrole, hroom, reduceCtorEq,
    if_false, reduceIte]

/-- C10: a leave from a client spectating an existing room removes exactly
that client's id from the room's spectator set and broadcasts the updated
snapshot to the room's remaining occupants; every other room field is
untouched (the room value is a spectators-only update of the old one), the
room stays in the active index, and the queue is untouched. -/
theorem handleLeave_spectator_spec (s : ServerState) (cid roomKey : String)
    (meta : ClientMeta) (room : RoomState)
    (hmeta : mapFind s.clients cid = some meta)
    (hid : meta.id = cid)
    (hst : meta.status = .spectating)
    (hrk : meta.roomKey = some roomKey)
    (hrole : meta.role = some .spectator)
    (hroom : mapFind s.rooms roomKey = some room) :
    (handleLeave s cid).1.rooms =
      mapSet s.rooms roomKey
        { room with spectators := room.spectators.erase cid } ∧
    mapFind (handleLeave s cid).1.rooms roomKey =
      some { room with spectators := room.spectators.erase cid } ∧
    (handleLeave s cid).2 =
      broadcastRoom
        { s with
            rooms := mapSet s.rooms roomKey
              { room with spectators := room.spectators.erase cid } }
        { room with spectators := room.spectators.erase cid }
        (.matchUpdate (toStatePayload
          { room with spectators := room.spectators.erase cid })) ∧
    (handleLeave s cid).1.randomQueue = s.randomQueue := by
  rw [handleLeave_spectator_eq s cid roomKey meta room hmeta hid hst hrk hrole
    hroom]
  refine ⟨rfl, ?_, rfl, rfl⟩
  dsimp only
  rw [mapFind_mapSet, if_pos rfl]

/-- C10 witness: sp1 leaves the fixture room; the room stays indexed with
an empty spectator set and nothing else changed. -/
theorem handleLeave_spectator_spec_witness :
    mapFind (handleLeave fixSpecState "sp1").1.rooms "ROOM01" =
      some { fixSpecRoom with spectators := [] } := by
  have h := (handleLeave_spectator_spec fixSpecState "sp1" "ROOM01"
    fixMetaSp1 fixSpecRoom rfl rfl rfl rfl rfl rfl).2.1
  rw [h]
  rfl

/-- C6 (amended): a spectate-join by an idle client into a playing room
succeeds — the client is appended to the spectator set and the broadcast
snapshot's spectator count goes up by exactly one; against a waiting room
the request is refused with an error and the requester is not seated. -/
theorem handleSpectateJoin_spec (s : ServerState) (cid key : String)
    (meta : ClientMeta) (room : RoomState)
    (hmeta : mapFind s.clients cid = some meta)
    (hid : meta.id = cid)
    (hidle : meta.status = .idle)
    (hroom : mapFind s.rooms key = some room) :
    (room.status = .playing → cid ∉ room.spectators →
      (mapFind (handleSpectateJoin s cid key).1.rooms key =
        some { room with spectators := room.spectators ++ [cid] } ∧
       (toStatePayload { room with spectators := room.spectators ++ [cid]
         }).spectators = (toStatePayload room).spectators + 1 ∧
       (handleSpectateJoin s cid key).2 =
         (cid, OutMsg.matchStart "spectator" none room.key
           (toStatePayload { room with spectators := room.spectators ++ [cid] })) ::
         broadcastRoom
           { s with
               clients := mapSet s.clients cid
                 { meta with
                     status := .spectating
                     role := some .spectator
                     roomKey := some key
                     disk := none }
               rooms := mapSet s.rooms key
                 { room with spectators := room.spectators ++ [cid] } }
           { room with spectators := room.spectators ++ [cid] }
           (.matchUpdate (toStatePayload
             { room with spectators := room.spectators ++ [cid] })))) ∧
    (room.status = .waiting →
      handleSpectateJoin s cid key =
        (s, [(cid, .error "Match is not currently playing.")])) := by
  constructor
  · intro hp hnotin
    have hadd : setAdd room.spectators cid = room.spectators ++ [cid] := by
      unfold setAdd
      rw [if_neg hnotin]
    simp only [handleSpectateJoin, hmeta, hid, hidle, hroom, hp, hadd,
      reduceCtorEq, ne_eq, not_true_eq_false, if_false, reduceIte]
    refine ⟨?_, ?_, rfl⟩
    · dsimp only
      rw [mapFind_mapSet, if_pos rfl]
    · simp [toStatePayload]
  · intro hw
    have hnp : room.status ≠ .playing := by
      rw [hw]
      decide
    simp [handleSpectateJoin, hmeta, hidle, hroom, hnp]

/-- C6 witness: p3 spectates the playing fixture room; the broadcast
count rises from 0 to 1. -/
theorem handleSpectateJoin_spec_witness :
    mapFind (handleSpectateJoin fixState "p3" "ROOM01").1.rooms "ROOM01" =
      some { fixRoom with spectators := ["p3"] } := by
  have h := ((handleSpectateJoin_spec fixState "p3" "ROOM01" fixMetaP3 fixRoom
    rfl rfl rfl rfl).1 rfl (by decide)).1
  rw [h]
  rfl

/-- C6 counterexample to the claim as stated: against the waiting fixture
room, spectate-join replies with an error and leaves the state unchanged —
the requester is not seated as the second player (the second seat stays
empty). -/
theorem handleSpectateJoin_waiting_cex :
    handleSpectateJoin fixWaitState "p3" "ROOM02" =
      (fixWaitState, [("p3", OutMsg.error "Match is not currently playing.")])
      ∧ fixWaitRoom.playerW = none :=
  ⟨rfl, rfl⟩

theorem sendById_isSome (s : ServerState) (cid : String) (msg : OutMsg)
    (h : mapFind s.clients cid ≠ none) :
    sendById s (some cid) msg = [(cid, msg)] := by
  rcases hm : mapFind s.clients cid with _ | m
  · exact absurd hm h
  · simp [sendById, hm]

theorem mapFind_mapSet_ne_none {α : Type} {m : List (String × α)}
    {k k2 : String} (v : α) (h : mapFind m k ≠ none) :
    mapFind (mapSet m k2 v) k ≠ none := by
  rw [mapFind_mapSet]
  by_cases hk : k2 = k
  · simp [hk]
  · simpa [hk] using h

/-- C5: whenever a room's second seat becomes filled — by a key-join into
a waiting room holding one seated player, or by a queue-join that pairs
the joiner with the one queued session — the board is reinitialised to the
canonical start, the active disk is Black, the status becomes playing, the
turn deadline is now + the configured timeout, and both seated players
receive a match-start carrying this same snapshot. -/
theorem roomStart_spec (s : ServerState) (cid : String) (meta : ClientMeta)
    (now : Nat) (hmeta : mapFind s.clients cid = some meta)
    (hid : meta.id = cid) (hidle : meta.status = .idle) :
    (∀ (key pb : String) (room : RoomState),
      mapFind s.rooms key = some room → room.status = .waiting →
      room.playerB = some pb → room.playerW = none →
      mapFind s.clients pb ≠ none →
      ∃ started : RoomState,
        started.board = createInitialBoard ∧
        started.currentDisk = .B ∧
        started.status = .playing ∧
        started.turnDeadline = some (now + TURN_TIMEOUT_MS) ∧
        started.playerB = some pb ∧
        started.playerW = some cid ∧
        mapFind (handleKeyJoin s cid key now).1.rooms key = some started ∧
        (handleKeyJoin s cid key now).2 =
          [(pb, .matchStart "player" (some .B) room.key (toStatePayload started)),
           (cid, .matchStart "player" (some .W) room.key (toStatePayload started))]) ∧
    (∀ (firstId freshKey : String) (coin : Bool) (fmeta : ClientMeta),
      s.randomQueue = [firstId] → firstId ≠ cid →
      mapFind s.clients firstId = some fmeta → fmeta.id = firstId →
      ∃ started : RoomState,
        started.board = createInitialBoard ∧
        started.currentDisk = .B ∧
        started.status = .playing ∧
        started.turnDeadline = some (now + TURN_TIMEOUT_MS) ∧
        started.playerB = some (if coin then cid else firstId) ∧
        started.playerW = some (if coin then firstId else cid) ∧
        mapFind (handleRandomJoin s cid freshKey coin now).1.rooms freshKey =
          some started ∧
        (handleRandomJoin s cid freshKey coin now).2 =
          [(cid, .queueStatus true),
           ((if coin then cid else firstId), .queueStatus false),
           ((if coin then cid else firstId),
             .matchStart "player" (some .B) freshKey (toStatePayload started)),
           ((if coin then firstId else cid), .queueStatus false),
           ((if coin then firstId else cid),
             .matchStart "player" (some .W) freshKey (toStatePayload started))]) := by
  constructor
  · intro key pb room hroomf hw hpb hpw hpbreg
    refine ⟨⟨room.key, createInitialBoard, .B, none, room.playerB, some cid,
      room.spectators, .playing, "Black to move first.", room.createdAt,
      none, some (now + TURN_TIMEOUT_MS)⟩,
      rfl, rfl, rfl, rfl, hpb, rfl, ?_, ?_⟩
    · simp only [handleKeyJoin, hmeta, hidle, hroomf, hw, hpb, hid,
        assignPlayer, RoomState.setPlayer, startRoom, refreshTurnDeadline,
        reduceCtorEq, ne_eq, not_true_eq_false, not_false_eq_true, if_false,
        if_true, reduceIte, false_and, and_true, and_false, true_and,
        Option.some_ne_none, not_not]
      simp [mapFind_mapSet, hpb]
    · simp only [handleKeyJoin, hmeta, hidle, hroomf, hw, hpb, hid,
        assignPlayer, RoomState.setPlayer, startRoom, refreshTurnDeadline,
        reduceCtorEq, ne_eq, not_true_eq_false, not_false_eq_true, if_false,
        if_true, reduceIte, false_and, and_true, and_false, true_and,
        Option.some_ne_none, not_not]
      rw [sendById_isSome _ _ _ (mapFind_mapSet_ne_none _ hpbreg),
        sendById_isSome _ _ _ (by rw [mapFind_mapSet, if_pos rfl]; simp)]
      simp [hpb, toStatePayload]
  · intro firstId freshKey coin fmeta hq hne hfm hfid
    have hne2 : ¬cid = firstId := fun h => hne h.symm
    cases coin
    · refine ⟨⟨freshKey, createInitialBoard, .B, none, some firstId,
        some cid, [], .playing, "Black to move first.", now,
        none, some (now + TURN_TIMEOUT_MS)⟩,
        rfl, rfl, rfl, rfl, rfl, rfl, ?_, ?_⟩
      · simp [handleRandomJoin, hmeta, hidle, hid, hq, createRandomRoom,
          hne2, hfm, hfid, createRoom, startRoom, refreshTurnDeadline,
          mapFind_mapSet]
      · simp [handleRandomJoin, hmeta, hidle, hid, hq, createRandomRoom,
          hne2, hfm, hfid, createRoom, startRoom, refreshTurnDeadline,
          mapFind_mapSet, toStatePayload]
    · refine ⟨⟨freshKey, createInitialBoard, .B, none, some cid,
        some firstId, [], .playing, "Black to move first.", now,
        none, some (now + TURN_TIMEOUT_MS)⟩,
        rfl, rfl, rfl, rfl, rfl, rfl, ?_, ?_⟩
      · simp [handleRandomJoin, hmeta, hidle, hid, hq, createRandomRoom,
          hne2, hfm, hfid, createRoom, startRoom, refreshTurnDeadline,
          mapFind_mapSet]
      · simp [handleRandomJoin, hmeta, hidle, hid, hq, createRandomRoom,
          hne2, hfm, hfid, createRoom, startRoom, refreshTurnDeadline,
          mapFind_mapSet, toStatePayload]

/-! ## C4 machinery: the timeout sweep -/

theorem mapFind_eq_none_iff {α : Type} (m : List (String × α)) (k : String) :
    mapFind m k = none ↔ k ∉ m.map Prod.fst := by
  induction m with
  | nil => simp [mapFind]
  | cons q rest ih =>
    obtain ⟨a, b⟩ := q
    by_cases hak : a = k
    · subst hak
      simp [mapFind]
    · simp only [mapFind, if_neg hak, ih, List.map_cons, List.mem_cons]
      constructor
      · intro h
        rintro (h2 | h2)
        · exact hak h2.symm
        · exact h h2
      · intro h h2
        exact h (Or.inr h2)

theorem mapDelete_sublist {α : Type} (m : List (String × α)) (k : String) :
    (mapDelete m k).Sublist m := by
  induction m with
  | nil => simp [mapDelete]
  | cons q rest ih =>
    obtain ⟨a, b⟩ := q
    by_cases hak : a = k
    · subst hak
      simp [mapDelete]
    · simp only [mapDelete, if_neg hak]
      exact ih.cons₂ (a, b)

theorem handleTimeout_rooms_sublist (s : ServerState) (k : String) :
    (handleTimeout s k).1.rooms.Sublist s.rooms := by
  unfold handleTimeout
  rcases hr : mapFind s.rooms k with _ | r
  · simp
  · by_cases hc : (decide (r.status = .playing) &&
        truthyDeadline r.turnDeadline) = true
    · simp only [hr, hc, if_true, if_pos]
      rw [cleanupRoom_rooms]
      exact mapDelete_sublist ..
    · simp [hr, hc]

theorem handleTimeout_coherent (s : ServerState) (k : String)
    (hco : RoomsCoherent s) : RoomsCoherent (handleTimeout s k).1 :=
  fun p hp => hco p ((handleTimeout_rooms_sublist s k).subset hp)

theorem handleTimeout_nodup (s : ServerState) (k : String)
    (hnd : (s.rooms.map Prod.fst).Nodup) :
    ((handleTimeout s k).1.rooms.map Prod.fst).Nodup :=
  hnd.sublist ((handleTimeout_rooms_sublist s k).map Prod.fst)

theorem handleTimeout_rooms_none (s : ServerState) (k2 k : String)
    (h : mapFind s.rooms k = none) :
    mapFind (handleTimeout s k2).1.rooms k = none := by
  rw [mapFind_eq_none_iff] at h ⊢
  exact fun hm =>
    h (((handleTimeout_rooms_sublist s k2).map Prod.fst).subset hm)

theorem handleTimeout_fires (s : ServerState) (k : String) (room : RoomState)
    (hroom : mapFind s.rooms k = some room) (hp : room.status = .playing)
    (htr : truthyDeadline room.turnDeadline = true) :
    (handleTimeout s k).1.rooms = mapDelete s.rooms room.key ∧
    (handleTimeout s k).2 =
      broadcastRoom s (timeoutRoom room)
        (.matchEnd "timeout" (toStatePayload (timeoutRoom room))) := by
  unfold handleTimeout
  simp only [hroom, hp, htr, decide_True, Bool.true_and, if_true, if_pos,
    reduceIte]
  constructor
  · rw [cleanupRoom_rooms]
  · rfl

theorem handleTimeout_skips (s : ServerState) (k : String) (room : RoomState)
    (hroom : mapFind s.rooms k = some room) (hp : room.status ≠ .playing) :
    handleTimeout s k = (s, []) := by
  unfold handleTimeout
  simp [hroom, hp]

theorem handleTimeout_rooms_other (s : ServerState) (k2 k : String)
    (hco : RoomsCoherent s) (hne : k2 ≠ k) :
    mapFind (handleTimeout s k2).1.rooms k = mapFind s.rooms k := by
  unfold handleTimeout
  rcases hr : mapFind s.rooms k2 with _ | r
  · rfl
  · have hrk : r.key = k2 := hco _ (mem_of_mapFind hr)
    by_cases hc : (decide (r.status = .playing) &&
        truthyDeadline r.turnDeadline) = true
    · simp only [hc, if_true, if_pos, reduceIte]
      rw [cleanupRoom_rooms]
      show mapFind (mapDelete s.rooms r.key) k = mapFind s.rooms k
      rw [hrk]
      exact mapFind_mapDelete_ne s.rooms hne
    · simp [hc]

theorem releaseClient_clients_ne_none (s : ServerState) (c : Option String)
    (cid : String) (h : mapFind s.clients cid ≠ none) :
    mapFind (releaseClient s c).clients cid ≠ none := by
  rcases c with _ | c2
  · exact h
  · unfold releaseClient
    rcases hm : mapFind s.clients c2 with _ | m
    · simp only [hm]
      exact h
    · simp only [hm]
      exact mapFind_mapSet_ne_none _ h

theorem foldl_releaseClient_clients_ne_none (cid : String) :
    ∀ (l : List String) (s : ServerState),
      mapFind s.clients cid ≠ none →
      mapFind
        ((l.foldl (fun acc sid => releaseClient acc (some sid)) s)).clients
        cid ≠ none := by
  intro l
  induction l with
  | nil => intro s h; exact h
  | cons x rest ih =>
    intro s h
    rw [List.foldl_cons]
    exact ih _ (releaseClient_clients_ne_none s (some x) cid h)

theorem cleanupRoom_clients_ne_none (s : ServerState) (room : RoomState)
    (reason cid : String) (h : mapFind s.clients cid ≠ none) :
    mapFind (cleanupRoom s room reason).1.clients cid ≠ none := by
  unfold cleanupRoom releaseRoomOccupants
  dsimp only
  exact foldl_releaseClient_clients_ne_none cid _ _
    (releaseClient_clients_ne_none _ _ _
      (releaseClient_clients_ne_none _ _ _ h))

theorem handleTimeout_clients_ne_none (s : ServerState) (k cid : String)
    (h : mapFind s.clients cid ≠ none) :
    mapFind (handleTimeout s k).1.clients cid ≠ none := by
  unfold handleTimeout
  rcases hr : mapFind s.rooms k with _ | r
  · exact h
  · by_cases hc : (decide (r.status = .playing) &&
        truthyDeadline r.turnDeadline) = true
    · simp only [hc, if_true, if_pos, reduceIte]
      exact cleanupRoom_clients_ne_none _ _ _ _ h
    · simp only [hc, Bool.false_eq_true, if_false, reduceIte]
      exact h

theorem mem_broadcastRoom (s : ServerState) (room : RoomState) (msg : OutMsg)
    (cid : String)
    (hocc : room.playerB = some cid ∨ room.playerW = some cid ∨
      cid ∈ room.spectators)
    (hreg : mapFind s.clients cid ≠ none) :
    (cid, msg) ∈ broadcastRoom s room msg := by
  unfold broadcastRoom
  rcases hocc with h | h | h
  · rw [h, sendById_isSome _ _ _ hreg]
    simp
  · rw [h, sendById_isSome _ _ _ hreg]
    simp
  · have hm : (cid, msg) ∈
        (room.spectators.map (fun sid => sendById s (some sid) msg)).flatten := by
      rw [List.mem_flatten]
      refine ⟨sendById s (some cid) msg, List.mem_map.mpr ⟨cid, h, rfl⟩, ?_⟩
      rw [sendById_isSome _ _ _ hreg]
      simp
    simp [hm]

theorem runTimeouts_acc_mem (x : String × OutMsg) :
    ∀ (keys : List String) (s : ServerState) (acc : Outbox),
      x ∈ acc → x ∈ (runTimeouts s keys acc).2 := by
  intro keys
  induction keys with
  | nil => intro s acc h; exact h
  | cons k rest ih =>
    intro s acc h
    rw [runTimeouts]
    exact ih _ _ (List.mem_append_left _ h)

theorem runTimeouts_rooms_none (k : String) :
    ∀ (keys : List String) (s : ServerState) (acc : Outbox),
      mapFind s.rooms k = none →
      mapFind (runTimeouts s keys acc).1.rooms k = none := by
  intro keys
  induction keys with
  | nil => intro s acc h; exact h
  | cons k2 rest ih =>
    intro s acc h
    rw [runTimeouts]
    exact ih _ _ (handleTimeout_rooms_none s k2 k h)

theorem runTimeouts_hits (k : String) (room : RoomState)
    (hp : room.status = .playing)
    (htr : truthyDeadline room.turnDeadline = true) :
    ∀ (keys : List String) (s : ServerState) (acc : Outbox),
      RoomsCoherent s → (s.rooms.map Prod.fst).Nodup →
      mapFind s.rooms k = some room → k ∈ keys →
      (mapFind (runTimeouts s keys acc).1.rooms k = none ∧
       ∀ cid2 : String,
         (room.playerB = some cid2 ∨ room.playerW = some cid2 ∨
           cid2 ∈ room.spectators) →
         mapFind s.clients cid2 ≠ none →
         (cid2, OutMsg.matchEnd "timeout" (toStatePayload (timeoutRoom room)))
           ∈ (runTimeouts s keys acc).2) := by
  intro keys
  induction keys with
  | nil =>
    intro s acc _ _ _ hk
    exact absurd hk (List.not_mem_nil k)
  | cons k2 rest ih =>
    intro s acc hco hnd hroom hk
    by_cases hkk : k2 = k
    · subst hkk
      rw [runTimeouts]
      have hfire := handleTimeout_fires s k2 room hroom hp htr
      have hkey : room.key = k2 := hco _ (mem_of_mapFind hroom)
      constructor
      · apply runTimeouts_rooms_none
        rw [hfire.1, hkey]
        exact mapFind_mapDelete_self _ _ hnd
      · intro cid2 hocc hreg
        apply runTimeouts_acc_mem
        apply List.mem_append_right
        rw [hfire.2]
        exact mem_broadcastRoom s (timeoutRoom room) _ cid2
          (by simpa [timeoutRoom] using hocc) hreg
    · rw [runTimeouts]
      have hk2 : k ∈ rest := by
        rcases List.mem_cons.mp hk with h | h
        · exact absurd h.symm hkk
        · exact h
      have hstep := ih (handleTimeout s k2).1 (acc ++ (handleTimeout s k2).2)
        (handleTimeout_coherent s k2 hco) (handleTimeout_nodup s k2 hnd)
        (by rw [handleTimeout_rooms_other s k2 k hco hkk]; exact hroom) hk2
      refine ⟨hstep.1, fun cid2 hocc hreg => hstep.2 cid2 hocc ?_⟩
      exact handleTimeout_clients_ne_none s k2 cid2 hreg

theorem runTimeouts_skips (k : String) (room : RoomState)
    (hp : room.status ≠ .playing) :
    ∀ (keys : List String) (s : ServerState) (acc : Outbox),
      RoomsCoherent s → mapFind s.rooms k = some room →
      mapFind (runTimeouts s keys acc).1.rooms k = some room := by
  intro keys
  induction keys with
  | nil => intro s acc _ h; exact h
  | cons k2 rest ih =>
    intro s acc hco hroom
    rw [runTimeouts]
    by_cases hkk : k2 = k
    · subst hkk
      rw [handleTimeout_skips s k2 room hroom hp]
      exact ih _ _ hco hroom
    · apply ih _ _ (handleTimeout_coherent s k2 hco)
      rw [handleTimeout_rooms_other s k2 k hco hkk]
      exact hroom

/-- C4: when the sweep's tick inspects a playing room whose recorded
absolute deadline (always positive as recorded) is at or before now, the
room is resolved as a forfeit of the player on move: the winner is the
disk opposite the room's active disk, every seat and spectator still in
the registry receives the terminal room-end broadcast with reason
"timeout", and the room leaves the active index; a room whose status is
not playing is left untouched. -/
theorem sweep_timeout_spec (s : ServerState) (now : Nat)
    (hco : RoomsCoherent s) (hnd : (s.rooms.map Prod.fst).Nodup) :
    (∀ (k : String) (room : RoomState) (dl : Nat),
      mapFind s.rooms k = some room → room.status = .playing →
      room.turnDeadline = some dl → dl ≠ 0 → dl ≤ now →
      (mapFind (sweep s now).1.rooms k = none ∧
       ∀ cid2 : String,
         (room.playerB = some cid2 ∨ room.playerW = some cid2 ∨
           cid2 ∈ room.spectators) →
         mapFind s.clients cid2 ≠ none →
         (cid2, OutMsg.matchEnd "timeout" (toStatePayload (timeoutRoom room)))
           ∈ (sweep s now).2)) ∧
    (∀ (k : String) (room : RoomState),
      mapFind s.rooms k = some room → room.status ≠ .playing →
      mapFind (sweep s now).1.rooms k = some room) := by
  constructor
  · intro k room dl hroom hp hdl h0 hle
    have htr2 : truthyDeadline (some dl) = true := by
      simp only [truthyDeadline, bne_iff_ne, ne_eq]
      exact h0
    have htr : truthyDeadline room.turnDeadline = true := by
      rw [hdl]
      exact htr2
    have hkmem : k ∈ expiredKeys s now := by
      unfold expiredKeys
      refine List.mem_map.mpr ⟨(k, room), List.mem_filter.mpr
        ⟨mem_of_mapFind hroom, ?_⟩, rfl⟩
      simp [hp, htr2, hdl, hle]
    exact runTimeouts_hits k room hp htr (expiredKeys s now) s [] hco hnd
      hroom hkmem
  · intro k room hroom hp
    exact runTimeouts_skips k room hp (expiredKeys s now) s [] hco hroom

/-- C4 witness: sweeping the fixture at a time past its deadline deletes
the room and notifies p1. -/
theorem sweep_timeout_spec_witness :
    mapFind (sweep fixState 999999).1.rooms "ROOM01" = none ∧
    ("p1", OutMsg.matchEnd "timeout" (toStatePayload (timeoutRoom fixRoom)))
      ∈ (sweep fixState 999999).2 := by
  have h := ((sweep_timeout_spec fixState 999999
    (by unfold RoomsCoherent; decide) (by decide)).1
    "ROOM01" fixRoom TURN_TIMEOUT_MS rfl rfl rfl (by decide) (by decide))
  exact ⟨h.1, h.2 "p1" (Or.inl rfl) (by decide)⟩

/-- C5 witness: q2 queue-joins while q1 waits in the queue; a room starts
on the fresh key with both seats taken and the deadline set. -/
theorem roomStart_spec_witness :
    ∃ started : RoomState,
      started.board = createInitialBoard ∧
      started.currentDisk = .B ∧
      started.status = .playing ∧
      started.turnDeadline = some (700 + TURN_TIMEOUT_MS) ∧
      started.playerB = some (if false then "q2" else "q1") ∧
      started.playerW = some (if false then "q1" else "q2") ∧
      mapFind (handleRandomJoin fixQueueState "q2" "RK" false 700).1.rooms "RK" =
        some started ∧
      (handleRandomJoin fixQueueState "q2" "RK" false 700).2 =
        [("q2", .queueStatus true),
         ((if false then "q2" else "q1"), .queueStatus false),
         ((if false then "q2" else "q1"),
           .matchStart "player" (some .B) "RK" (toStatePayload started)),
         ((if false then "q1" else "q2"), .queueStatus false),
         ((if false then "q1" else "q2"),
           .matchStart "player" (some .W) "RK" (toStatePayload started))] :=
  (roomStart_spec fixQueueState "q2" fixMetaQ2 700 rfl rfl rfl).2
    "q1" "RK" false fixMetaQ1 rfl (by decide) rfl rfl

/-! ## C3 machinery: the room invariant holds in every reachable state -/

theorem RoomsInv_of_subset {m m2 : List (String × RoomState)}
    (h : RoomsInv m) (hs : ∀ p ∈ m2, p ∈ m) : RoomsInv m2 :=
  fun p hp => h p (hs p hp)

theorem RoomsInv_mapSet {m : List (String × RoomState)} {k : String}
    {room : RoomState} (h : RoomsInv m) (hinv : RoomInv room)
    (hkey : room.key = k) : RoomsInv (mapSet m k room) := by
  intro p hp
  rcases mem_mapSet hp with h2 | h2
  · subst h2
    exact ⟨hinv, hkey⟩
  · exact h p h2

theorem RoomsInv_mapDelete {m : List (String × RoomState)} {k : String}
    (h : RoomsInv m) : RoomsInv (mapDelete m k) :=
  RoomsInv_of_subset h (fun _ hp => mem_mapDelete hp)

/-- The status recomputation on a playing room either keeps it playing
with the winner untouched, or finishes it. -/
theorem ensureRoomTurn_cases (room : RoomState)
    (hp : room.status = .playing) :
    ((ensureRoomTurn room).status = .playing ∧
      (ensureRoomTurn room).winner = room.winner) ∨
    (ensureRoomTurn room).status = .finished := by
  by_cases h1 : computeValidMoves room.board room.currentDisk = []
  · by_cases h2 :
        computeValidMoves room.board (nextDisk room.currentDisk) = []
    · right
      rw [ensureRoomTurn_playing_end room hp h1 h2]
      by_cases h3 : (countDisks room.board).B = (countDisks room.board).W <;>
        simp [h3]
    · left
      rw [ensureRoomTurn_playing_pass room hp h1 h2]
      exact ⟨hp, rfl⟩
  · left
    rw [ensureRoomTurn_playing_hasMoves room hp h1]
    exact ⟨hp, rfl⟩

theorem roomsInv_connectClient (s : ServerState) (cid : String)
    (h : RoomsInv s.rooms) : RoomsInv (connectClient s cid).rooms := h

theorem roomsInv_handleTimeout (s : ServerState) (k : String)
    (h : RoomsInv s.rooms) : RoomsInv (handleTimeout s k).1.rooms :=
  RoomsInv_of_subset h
    (fun p hp => (handleTimeout_rooms_sublist s k).subset hp)

theorem roomsInv_runTimeouts :
    ∀ (keys : List String) (s : ServerState) (acc : Outbox),
      RoomsInv s.rooms → RoomsInv (runTimeouts s keys acc).1.rooms := by
  intro keys
  induction keys with
  | nil => intro s acc h; exact h
  | cons k rest ih =>
    intro s acc h
    rw [runTimeouts]
    exact ih _ _ (roomsInv_handleTimeout s k h)

theorem roomsInv_sweep (s : ServerState) (now : Nat)
    (h : RoomsInv s.rooms) : RoomsInv (sweep s now).1.rooms :=
  roomsInv_runTimeouts (expiredKeys s now) s [] h

theorem roomsInv_handleKeyCreate (s : ServerState) (cid freshKey : String)
    (now : Nat) (h : RoomsInv s.rooms) :
    RoomsInv (handleKeyCreate s cid freshKey now).1.rooms := by
  unfold handleKeyCreate
  rcases hm : mapFind s.clients cid with _ | meta
  · exact h
  · dsimp only
    by_cases hi : meta.status ≠ .idle
    · rw [if_pos hi]
      exact h
    · rw [if_neg hi]
      refine RoomsInv_mapSet h ?_ rfl
      simp [RoomInv, createRoom, assignPlayer, RoomState.setPlayer]

theorem roomsInv_handleSpectateJoin (s : ServerState) (cid key : String)
    (h : RoomsInv s.rooms) :
    RoomsInv (handleSpectateJoin s cid key).1.rooms := by
  unfold handleSpectateJoin
  rcases hm : mapFind s.clients cid with _ | meta
  · exact h
  · dsimp only
    by_cases hi : meta.status ≠ .idle
    · rw [if_pos hi]
      exact h
    · rw [if_neg hi]
      rcases hr : mapFind s.rooms key with _ | room
      · exact h
      · dsimp only
        by_cases hp : room.status ≠ .playing
        · rw [if_pos hp]
          exact h
        · rw [if_neg hp]
          obtain ⟨hinv, hkey⟩ := h _ (mem_of_mapFind hr)
          refine RoomsInv_mapSet h ?_ hkey
          simpa [RoomInv] using hinv

theorem roomsInv_createRandomRoom (s : ServerState)
    (firstId secondId freshKey : String) (coin : Bool) (now : Nat)
    (h : RoomsInv s.rooms) :
    RoomsInv (createRandomRoom s firstId secondId freshKey coin now).1.rooms := by
  unfold createRandomRoom
  rcases h1 : mapFind s.clients firstId with _ | fm <;>
    rcases h2 : mapFind s.clients secondId with _ | sm
  · exact h
  · exact h
  · exact h
  · refine RoomsInv_mapSet h ?_ rfl
    simp [RoomInv, createRoom, startRoom, refreshTurnDeadline]

theorem roomsInv_handleRandomJoin (s : ServerState) (cid freshKey : String)
    (coin : Bool) (now : Nat) (h : RoomsInv s.rooms) :
    RoomsInv (handleRandomJoin s cid freshKey coin now).1.rooms := by
  unfold handleRandomJoin
  rcases hm : mapFind s.clients cid with _ | meta
  · exact h
  · dsimp only
    by_cases hi : meta.status ≠ .idle
    · rw [if_pos hi]
      by_cases hq : meta.status = .queue
      · rw [if_pos hq]
        exact h
      · rw [if_neg hq]
        exact h
    · rw [if_neg hi]
      cases hql : s.randomQueue ++ [meta.id] with
      | nil => exact h
      | cons q1 ql =>
        cases ql with
        | nil => exact h
        | cons q2 ql2 =>
          exact roomsInv_createRandomRoom _ q1 q2 freshKey coin now h

theorem roomsInv_handleKeyJoin (s : ServerState) (cid key : String)
    (now : Nat) (h : RoomsInv s.rooms) :
    RoomsInv (handleKeyJoin s cid key now).1.rooms := by
  unfold handleKeyJoin
  rcases hm : mapFind s.clients cid with _ | meta
  · exact h
  · dsimp only
    by_cases hi : meta.status ≠ .idle
    · rw [if_pos hi]
      exact h
    · rw [if_neg hi]
      rcases hr : mapFind s.rooms key with _ | room
      · exact h
      · dsimp only
        obtain ⟨hinv, hkey⟩ := h _ (mem_of_mapFind hr)
        by_cases h1 : room.status = .playing ∧ room.playerB ≠ none ∧
            room.playerW ≠ none
        · rw [if_pos h1]
          exact h
        · rw [if_neg h1]
          by_cases h2 : room.status = .finished
          · rw [if_pos h2]
            exact h
          · rw [if_neg h2]
            dsimp only [assignPlayer]
            by_cases hpb : room.playerB ≠ none
            · rw [if_pos hpb]
              dsimp only [RoomState.setPlayer]
              rw [if_pos ⟨hpb, by simp⟩]
              refine RoomsInv_mapSet h ?_
                (by simp [startRoom, refreshTurnDeadline]; exact hkey)
              simp [RoomInv, startRoom, refreshTurnDeadline, hpb]
            · rw [if_neg hpb]
              dsimp only [RoomState.setPlayer]
              by_cases hpw : room.playerW ≠ none
              · rw [if_pos ⟨by simp, hpw⟩]
                refine RoomsInv_mapSet h ?_
                  (by simp [startRoom, refreshTurnDeadline]; exact hkey)
                simp [RoomInv, startRoom, refreshTurnDeadline, hpw]
              · rw [if_neg (by simp [hpw])]
                have hwait : room.status = .waiting := by
                  rcases hst : room.status with _ | _ | _
                  · rfl
                  · exfalso
                    exact hpb (hinv.2.2 hst).2.1
                  · exact absurd hst h2
                refine RoomsInv_mapSet h ?_ (by simp; exact hkey)
                refine ⟨by simp [hwait], fun _ => ?_, fun habs => ?_⟩
                · simpa using (hinv.2.1 hwait).1
                · exfalso
                  have habs2 : room.status = RoomStatus.playing := habs
                  rw [hwait] at habs2
                  exact RoomStatus.noConfusion habs2

theorem roomsInv_handleMove (s : ServerState) (cid : String)
    (index now : Nat) (h : RoomsInv s.rooms) :
    RoomsInv (handleMove s cid index now).1.rooms := by
  unfold handleMove
  rcases hm : mapFind s.clients cid with _ | meta
  · exact h
  · dsimp only
    rcases hrk : meta.roomKey with _ | roomKey
    · exact h
    · rcases hro : meta.role with _ | role
      · exact h
      · rcases role
        · rcases hd : meta.disk with _ | d
          · exact h
          · dsimp only
            rcases hr : mapFind s.rooms roomKey with _ | room
            · exact h
            · dsimp only
              obtain ⟨hinv, hkey⟩ := h _ (mem_of_mapFind hr)
              by_cases hs1 : room.status ≠ .playing
              · rw [if_pos hs1]
                exact h
              · rw [if_neg hs1]
                have hp : room.status = .playing := not_not.mp hs1
                by_cases hs2 : room.currentDisk ≠ d
                · rw [if_pos hs2]
                  exact h
                · rw [if_neg hs2]
                  rcases hlk : lookupMove
                      (computeValidMoves room.board room.currentDisk) index
                      with _ | flips
                  · exact h
                  · dsimp only
                    obtain ⟨hwin, hb, hw, hdl⟩ := hinv.2.2 hp
                    set moved : RoomState := { room with
                        board := applyMove room.board index room.currentDisk flips
                        lastMove := some index
                        currentDisk := nextDisk room.currentDisk } with hmv
                    have hms : moved.status = RoomStatus.playing := hp
                    have hfr := ensureRoomTurn_frame moved
                    have hkey2 : (refreshTurnDeadline (ensureRoomTurn moved)
                        now).key = roomKey := by
                      rw [(refreshTurnDeadline_frame _ _).2.2.1, hfr.2.2.1]
                      exact hkey
                    rcases ensureRoomTurn_cases moved hms with hcase | hcase
                    · rw [if_neg (fun habs =>
                        RoomStatus.noConfusion (hcase.1.symm.trans habs))]
                      refine RoomsInv_mapSet h ?_ hkey2
                      have hr2s : (refreshTurnDeadline (ensureRoomTurn moved)
                          now).status = RoomStatus.playing :=
                        (refreshTurnDeadline_frame _ _).2.2.2.1.trans hcase.1
                      refine ⟨?_, ?_, fun _ => ⟨?_, ?_, ?_, ?_⟩⟩
                      · intro habs
                        rw [hr2s] at habs
                        exact RoomStatus.noConfusion habs
                      · intro habs
                        rw [hr2s] at habs
                        exact RoomStatus.noConfusion habs
                      · rw [(refreshTurnDeadline_frame _ _).2.2.2.2.2.1,
                          hcase.2]
                        exact hwin
                      · rw [(refreshTurnDeadline_frame _ _).2.2.2.2.2.2.1,
                          hfr.2.2.2.1]
                        exact hb
                      · rw [(refreshTurnDeadline_frame _ _).2.2.2.2.2.2.2,
                          hfr.2.2.2.2.1]
                        exact hw
                      · rw [refreshTurnDeadline_playing _ _ hcase.1]
                        simp
                    · rw [if_pos hcase]
                      dsimp only
                      rw [cleanupRoom_rooms, hkey2]
                      exact RoomsInv_of_subset h
                        (fun p hp => mem_mapDelete_mapSet hp)
        · exact h

theorem roomsInv_handleLeave (s : ServerState) (cid : String)
    (h : RoomsInv s.rooms) : RoomsInv (handleLeave s cid).1.rooms := by
  unfold handleLeave
  rcases hm : mapFind s.clients cid with _ | meta
  · exact h
  · dsimp only
    by_cases hq : meta.status = .queue
    · rw [if_pos hq]
      exact h
    · rw [if_neg hq]
      rcases hrk : meta.roomKey with _ | roomKey
      · exact h
      · dsimp only
        rcases hr : mapFind s.rooms roomKey with _ | room
        · exact h
        · dsimp only
          obtain ⟨hinv, hkey⟩ := h _ (mem_of_mapFind hr)
          by_cases hrole : meta.role = some .spectator
          · rw [if_pos hrole]
            refine RoomsInv_mapSet h ?_ hkey
            exact hinv
          · rw [if_neg hrole]
            dsimp only
            split
            · rw [cleanupRoom_rooms]
              exact RoomsInv_mapDelete h
            · rw [cleanupRoom_rooms]
              exact RoomsInv_mapDelete h

theorem roomsInv_evictClient (s : ServerState) (cid : String)
    (h : RoomsInv s.rooms) : RoomsInv (evictClient s cid).1.rooms := by
  unfold evictClient
  rcases hm : mapFind s.clients cid with _ | meta
  · exact roomsInv_handleLeave s cid h
  · exact roomsInv_handleLeave s cid h

theorem roomsInv_handleMessage (s : ServerState) (cid : String) (msg : InMsg)
    (now : Nat) (freshKey : String) (coin : Bool) (h : RoomsInv s.rooms) :
    RoomsInv (handleMessage s cid msg now freshKey coin).1.rooms := by
  cases msg with
  | randomJoin => exact roomsInv_handleRandomJoin s cid freshKey coin now h
  | randomCancel => exact roomsInv_handleLeave s cid h
  | keyCreate => exact roomsInv_handleKeyCreate s cid freshKey now h
  | keyJoin k =>
    rcases k with _ | k
    · exact h
    · exact roomsInv_handleKeyJoin s cid k now h
  | spectateJoin k =>
    rcases k with _ | k
    · exact h
    · exact roomsInv_handleSpectateJoin s cid k h
  | move i =>
    rcases i with _ | i
    · exact h
    · exact roomsInv_handleMove s cid i now h
  | leave => exact roomsInv_handleLeave s cid h
  | unknownType t => exact h
  | emptyType => exact h
  | unparseable => exact h

theorem reachable_roomsInv (s : ServerState) (h : Reachable s) :
    RoomsInv s.rooms := by
  induction h with
  | refl => intro p hp; simp [initialState] at hp
  | tail hab hbc ih =>
    cases hbc with
    | message cid msg now freshKey coin =>
      exact roomsInv_handleMessage _ cid msg now freshKey coin ih
    | sweepTick now => exact roomsInv_sweep _ now ih
    | connect cid hnew => exact roomsInv_connectClient _ cid ih
    | evict cid => exact roomsInv_evictClient _ cid ih

/-- C3: in every server state reachable through the event loop (key
create, key join, random pairing, spectate, move, leave, eviction,
timeout sweep, connection), every room of the active index has its winner
set exactly when its status is finished, and its turn deadline set
exactly when its status is playing. -/
theorem roomInvariant (s : ServerState) (h : Reachable s) :
    ∀ (k : String) (room : RoomState), mapFind s.rooms k = some room →
      ((room.winner ≠ none ↔ room.status = .finished) ∧
       (room.turnDeadline ≠ none ↔ room.status = .playing)) := by
  intro k room hroom
  obtain ⟨hinv, -⟩ := reachable_roomsInv s h _ (mem_of_mapFind hroom)
  obtain ⟨hnf, hwait, hplay⟩ := hinv
  rcases hst : room.status with _ | _ | _
  · obtain ⟨hw, hd⟩ := hwait hst
    have hw2 : room.winner = none := hw
    have hd2 : room.turnDeadline = none := hd
    exact ⟨⟨fun habs => absurd hw2 habs, fun habs => nomatch habs⟩,
           ⟨fun habs => absurd hd2 habs, fun habs => nomatch habs⟩⟩
  · obtain ⟨hw, -, -, hd⟩ := hplay hst
    have hw2 : room.winner = none := hw
    have hd2 : room.turnDeadline ≠ none := hd
    exact ⟨⟨fun habs => absurd hw2 habs, fun habs => nomatch habs⟩,
           ⟨fun _ => rfl, fun _ => hd2⟩⟩
  · exact absurd hst hnf

/-- C3 witness: the state reached by connecting p1 and creating a keyed
room satisfies the invariant at that room. -/
theorem roomInvariant_witness :
    (reachRoom.winner ≠ none ↔ reachRoom.status = .finished) ∧
    (reachRoom.turnDeadline ≠ none ↔ reachRoom.status = .playing) :=
  roomInvariant reachState2
    (Relation.ReflTransGen.tail
      (Relation.ReflTransGen.single
        (ServerStep.connect initialState "p1" rfl))
      (ServerStep.message reachState1 "p1" .keyCreate 0 "KEY" true))
    "KEY" reachRoom (by decide)

end Othello
